import Mathlib

/-!
# wsrpc `UniClientConn`: reconnecting single-connection RPC client

A shallow embedding of `uni_client.go`.  The Go code talks to four external
parties: the websocket dialer, the live connection (`Conn`), the `context`
and the logger.  They are modelled as follows:

* every call the code makes to the outside, and every access to the field
  `uc.conn`, is appended to `World.trace`;
* the answers of the outside are scripts (lists) that the code consumes in
  order: one entry per `d.DialContext` (`World.dials`), one per `ReadMessage`
  (`World.recvs`), one per `WriteMessage` (the argument `sends` of `Invoke`);
* the context is monotone: it is live for its first `liveFor` observations
  (`ctx.Err()`, or the `select` on `ctx.Done()`), and done ever after;
* the mutex `connMu` is a flag of the client.

A loop that needs an answer the script no longer has is `blocked`: the Go code
would still be waiting.  A method call on a nil `Conn` is `panicked`.
-/

namespace Wsrpc

/-! ## Values -/

/-- A Go byte slice. -/
abbrev Bytes := List Nat

/-- A `time.Time` instant (only passed through to the deadline setters). -/
abbrev Time := Int

/-- Identity of a live transport handle (a non-nil `Conn`). -/
abbrev Conn := Nat

deriving instance DecidableEq for Except

/-- Two's complement reduction of an integer to the `int64` range. -/
def wrapInt64 (x : Int) : Int := (x + 2 ^ 63) % 2 ^ 64 - 2 ^ 63

/-- Go's `*` on `time.Duration`, a signed 64-bit count of nanoseconds held here
in an `Int`: the product wraps modulo `2^64`. -/
def mulDuration (d : Int) (k : Int) : Int := wrapInt64 (d * k)

/-- The constant `time.Second`. -/
def second : Int := 1000000000

/-- The constant `time.Minute`. -/
def minute : Int := 60 * second

/-- The source's `max` on durations. -/
def max (d1 : Int) (d2 : Int) : Int :=
  if d1 > d2 then d1 else d2

/-- The two values `ctx.Err()` can take once the context is done. -/
inductive CtxErr where
  | canceled
  | deadlineExceeded
  deriving DecidableEq, Repr

/-- Go `error` values, tagged with the place that produced them. -/
inductive Error where
  /-- The value of `ctx.Err()`. -/
  | context (c : CtxErr)
  /-- The wrapped error `fmt.Errorf("error while dialing %w", err)` of `connect`. -/
  | dialing (cause : String)
  /-- The error returned by `WriteMessage`. -/
  | write (cause : String)
  /-- The error returned by `ReadMessage`. -/
  | read (cause : String)
  /-- The error returned by `Conn.Close`. -/
  | close (cause : String)
  /-- The error of `message.NewRequest` or of `MarshalProtoMessage`. -/
  | encoding (cause : String)
  /-- The error of `UnmarshalProtoMessage`. -/
  | decoding (cause : String)
  /-- The value `errors.New(text)`. -/
  | new (text : String)
  /-- The error of one of the `credentials` functions. -/
  | credentials (cause : String)
  deriving DecidableEq, Repr

/-- Modelled from the spec: the `message.Response` struct of the package
`internal/message`, which is not among the sources (Response Envelope:
"serialized payload or absence marker"). -/
structure Response where
  callId : String
  payload : Option Bytes
  deriving DecidableEq, Repr

/-- Modelled from the spec: the `message.Request` struct of `internal/message`
(Call Envelope: call identifier, method name, serialized arguments). -/
structure Request where
  callId : String
  method : String
  payload : Bytes
  deriving DecidableEq, Repr

/-- Modelled from the spec: the `Exchange` field of `message.Message`, a value
of interface type: nil, a `*Message_Request`, or a `*Message_Response` (a
pointer, which `Invoke` compares with nil). -/
inductive Exchange where
  | unset
  | request (r : Request)
  | response (r : Option Response)
  deriving DecidableEq, Repr

/-- Modelled from the spec: the envelope `message.Message`. -/
structure Message where
  exchange : Exchange
  deriving DecidableEq, Repr

/-- The serialisation collaborators, which are not among the sources:
`message.NewRequest`, `MarshalProtoMessage`, and `UnmarshalProtoMessage` at its
two uses (into a `message.Message`, and into the caller's `reply`).  A failure
carries the text of the error. -/
structure Codec (Args : Type) (Reply : Type) where
  newRequest : String → String → Args → Except String Message
  marshal : Message → Except String Bytes
  unmarshalMessage : Bytes → Except String Message
  unmarshalReply : Bytes → Except String Reply

/-! ## The outside world -/

/-- Calls made to the outside, in program order. -/
inductive Event where
  /-- Call `uc.connMu.Lock()` returned. -/
  | lock
  /-- Call `uc.connMu.Unlock()`. -/
  | unlock
  /-- A read of the field `uc.conn`; `held` tells whether `connMu` was held. -/
  | loadConn (held : Bool)
  /-- An assignment to the field `uc.conn`. -/
  | storeConn (held : Bool) (c : Option Conn)
  | setWriteDeadline (h : Conn) (t : Time)
  | writeMessage (h : Conn) (p : Bytes)
  | setReadDeadline (h : Conn) (t : Time)
  | readMessage (h : Conn)
  | closeConn (h : Conn)
  /-- One `d.DialContext` attempt made by `connect`. -/
  | dialContext
  /-- The timer `time.After(d)` armed by the `select` of the retry loop. -/
  | after (d : Int)
  /-- A call of `lggr.Warnf` with this format string and this error as its one
  argument. -/
  | warnf (format : String) (arg : Error)
  deriving DecidableEq, Repr

/-- A `context.Context`. -/
structure Context where
  /-- The result of `ctx.Deadline()`. -/
  deadline : Option Time
  /-- The value `ctx.Err()` has once the context is done. -/
  err : CtxErr
  /-- The number of observations that still see the context live; `none` for a
  context that is never cancelled. -/
  liveFor : Option Nat
  deriving DecidableEq, Repr

/-- Whether the context is done at its observation number `obs`. -/
def Context.doneAt (ctx : Context) (obs : Nat) : Bool :=
  match ctx.liveFor with
  | none => false
  | some k => decide (k ≤ obs)

/-- The state of the outside. -/
structure World where
  /-- Observations of the context made so far. -/
  obs : Nat
  /-- Outcomes of the coming `d.DialContext` attempts. -/
  dials : List (Except String Conn)
  /-- Outcomes of the coming `ReadMessage` calls. -/
  recvs : List (Except String Bytes)
  /-- Calls made so far. -/
  trace : List Event
  deriving DecidableEq, Repr

/-- Record a call. -/
def World.emit (w : World) (e : Event) : World :=
  { w with trace := w.trace ++ [e] }

/-- Count one observation of the context. -/
def World.observe (w : World) : World :=
  { w with obs := w.obs + 1 }

/-- How a run of a function ends. -/
inductive Status (α : Type) where
  /-- The function returned `a`. -/
  | returned (a : α)
  /-- A method was called on a nil `Conn`. -/
  | panicked
  /-- The function is waiting for the outside and the script has no answer. -/
  | blocked
  deriving DecidableEq, Repr

/-- The pair `(Conn, error)` a connect function returns. -/
abbrev ConnResult := Option Conn × Option Error

/-- The type of the field `connectFn`: on a world, a connect function returns its
pair, or is still waiting for the outside (`none`) when the script ends. -/
abbrev ConnectFn := Context → World → Option ConnResult × World

/-- The struct `UniClientConn`: whether `connMu` is held, and the field `conn`
(`none` for a nil interface value).  The field `connectFn` is an argument of
`Dial` and `Invoke`; the calls of `lggr` go to the trace. -/
structure UniClientConn where
  connMu : Bool
  conn : Option Conn
  deriving DecidableEq, Repr

/-! ## The code -/

/-- Function `connect`, given the outcome of its `d.DialContext` call: a failure is
wrapped, a success hands over the handle. -/
def connect (outcome : Except String Conn) : ConnResult :=
  match outcome with
  | .error cause => (none, some (.dialing cause))
  | .ok conn => (some conn, none)

/-- The `for` loop of `retryConnectWithBackoff`, run on the script of the coming
dial outcomes, with the current value of `reconnectWait`; `none` when the script
ends while the loop is still trying. -/
def retryLoop (ctx : Context) :
    List (Except String Conn) → Int → World → Option ConnResult × World
  | [], _, w => (none, w.emit .dialContext)
  | outcome :: rest, reconnectWait, w =>
    let w := { w.emit .dialContext with dials := rest }
    match connect outcome with
    | (freshConn, none) => (some (freshConn, none), w)
    | (_, some err) =>
      let w := w.emit (.warnf "error connecting %v, waiting then retrying" err)
      let w := w.emit (.after reconnectWait)
      if ctx.doneAt w.obs then
        (some (none, some (.context ctx.err)),
          w.observe.emit (.warnf "ctx error %v reconnecting" (.context ctx.err)))
      else
        retryLoop ctx rest (max (mulDuration reconnectWait 2) minute) w.observe

/-- Function `retryConnectWithBackoff(ctx, lggr, connect)`, with `connect` the
dialer above: the wait starts at one second. -/
def retryConnectWithBackoff (ctx : Context) (w : World) : Option ConnResult × World :=
  retryLoop ctx w.dials second w

/-- The `connectFn` that `NewTLSUniClientConn` stores in the client. -/
def tlsConnectFn : ConnectFn := fun ctx w => retryConnectWithBackoff ctx w

/-- Function `NewTLSUniClientConn`: a client with a free mutex and a nil `conn`. -/
def NewTLSUniClientConn : UniClientConn := { connMu := false, conn := none }

/-- Method `(*UniClientConn).Dial`: assigns both results of `connectFn`; the mutex is
not touched. -/
def Dial (connectFn : ConnectFn) (ctx : Context) (uc : UniClientConn) (w : World) :
    Status (Option Error) × UniClientConn × World :=
  match connectFn ctx w with
  | (some (conn, err), w) =>
    (.returned err, { uc with conn := conn }, w.emit (.storeConn uc.connMu conn))
  | (none, w) => (.blocked, uc, w)

/-- Function `DialUniWithContext`, given the results of its three credential calls
(collaborators outside the sources): the client pointer and the error. -/
def DialUniWithContext (privKey pubs tlsConfig : Except String Unit)
    (ctx : Context) (w : World) :
    Status (Option UniClientConn × Option Error) × World :=
  match privKey with
  | .error cause => (.returned (none, some (.credentials cause)), w)
  | .ok _ =>
    match pubs with
    | .error cause => (.returned (none, some (.credentials cause)), w)
    | .ok _ =>
      match tlsConfig with
      | .error cause => (.returned (none, some (.credentials cause)), w)
      | .ok _ =>
        match Dial tlsConnectFn ctx NewTLSUniClientConn w with
        | (.returned err, u, w) => (.returned (some u, err), w)
        | (.panicked, _, w) => (.panicked, w)
        | (.blocked, _, w) => (.blocked, w)

/-- What `Invoke` leaves behind: the returned error and, when the reply was
deserialised, the value written to `reply`. -/
structure InvokeResult (Reply : Type) where
  err : Option Error
  reply : Option Reply
  deriving DecidableEq, Repr

/-- The failure branch shared by the write and the read of `Invoke`'s loop: on the
left what `Invoke` ends with, on the right the client and the world at the
`continue`, the fresh handle assigned. -/
def onTransportError (connectFn : ConnectFn) (ctx : Context) (what : String) (err : Error)
    (uc : UniClientConn) (w : World) :
    Status (Except Error Bytes) × UniClientConn × World ⊕ UniClientConn × World :=
  if ctx.doneAt w.obs then
    .inl (.returned (.error (.context ctx.err)), uc,
      w.observe.emit (.warnf ("ctx error %v " ++ what ++ " message") (.context ctx.err)))
  else
    let w := w.observe.emit
      (.warnf ("received error %v " ++ what ++ " message, reconnecting") err)
    match connectFn ctx w with
    | (some (_, some err2), w) => .inl (.returned (.error err2), uc, w)
    | (some (freshConn, none), w) =>
      .inr ({ uc with conn := freshConn }, w.emit (.storeConn uc.connMu freshConn))
    | (none, w) => .inl (.blocked, uc, w)

/-- The two statements that open a round of `Invoke`'s loop, on a present handle:
the write deadline is set when the context has one, and `WriteMessage` is called. -/
def sendCalls (ctx : Context) (mu : Bool) (h : Conn) (reqBytes : Bytes) (w : World) : World :=
  let w := match ctx.deadline with
    | some deadline => (w.emit (.loadConn mu)).emit (.setWriteDeadline h deadline)
    | none => w
  (w.emit (.loadConn mu)).emit (.writeMessage h reqBytes)

/-- The two statements after a successful send: the read deadline is set when
the context has one, and `ReadMessage` is called. -/
def recvCalls (ctx : Context) (mu : Bool) (h : Conn) (w : World) : World :=
  let w := match ctx.deadline with
    | some deadline => (w.emit (.loadConn mu)).emit (.setReadDeadline h deadline)
    | none => w
  (w.emit (.loadConn mu)).emit (.readMessage h)

/-- The `for` loop of `Invoke`, run on the script of the coming `WriteMessage`
outcomes (`none` is success).  It ends with the received bytes (the `break`)
or with the error `Invoke` returns from inside the loop. -/
def invokeLoop (connectFn : ConnectFn) (ctx : Context) (reqBytes : Bytes) :
    List (Option String) → UniClientConn → World →
      Status (Except Error Bytes) × UniClientConn × World
  | _, ⟨mu, none⟩, w => (.panicked, ⟨mu, none⟩, w.emit (.loadConn mu))
  | [], ⟨mu, some h⟩, w => (.blocked, ⟨mu, some h⟩, sendCalls ctx mu h reqBytes w)
  | some cause :: sends, ⟨mu, some h⟩, w =>
    match onTransportError connectFn ctx "writing" (.write cause) ⟨mu, some h⟩
        (sendCalls ctx mu h reqBytes w) with
    | .inl r => r
    | .inr (uc, w) => invokeLoop connectFn ctx reqBytes sends uc w
  | none :: sends, ⟨mu, some h⟩, w =>
    let w := recvCalls ctx mu h (sendCalls ctx mu h reqBytes w)
    match w.recvs with
    | [] => (.blocked, ⟨mu, some h⟩, w)
    | .ok resBytes :: recvs => (.returned (.ok resBytes), ⟨mu, some h⟩, { w with recvs := recvs })
    | .error cause :: recvs =>
      match onTransportError connectFn ctx "reading" (.read cause) ⟨mu, some h⟩
          { w with recvs := recvs } with
      | .inl r => r
      | .inr (uc, w) => invokeLoop connectFn ctx reqBytes sends uc w

/-- The tail of `Invoke`, after the loop: the received bytes are deserialised
and the exchange kind decides the result. -/
def resolve {Args Reply : Type} (codec : Codec Args Reply) (resBytes : Bytes) :
    InvokeResult Reply :=
  match codec.unmarshalMessage resBytes with
  | .error cause => ⟨some (.decoding cause), none⟩
  | .ok msg =>
    match msg.exchange with
    | .response none => ⟨some (.new "response payload is nil"), none⟩
    | .response (some r) =>
      match r.payload with
      | none => ⟨some (.new "response payload is nil"), none⟩
      | some payload =>
        match codec.unmarshalReply payload with
        | .error cause => ⟨some (.decoding cause), none⟩
        | .ok v => ⟨none, some v⟩
    | _ => ⟨some (.new "unexpected message type"), none⟩

/-- The body of `Invoke` between `Lock` and the deferred `Unlock`; `callID` is
the string `uuid.NewString()` produced. -/
def invokeBody {Args Reply : Type} (codec : Codec Args Reply) (connectFn : ConnectFn)
    (ctx : Context) (callID method : String) (args : Args) (sends : List (Option String))
    (uc : UniClientConn) (w : World) :
    Status (InvokeResult Reply) × UniClientConn × World :=
  match codec.newRequest callID method args with
  | .error cause => (.returned ⟨some (.encoding cause), none⟩, uc, w)
  | .ok req =>
    match codec.marshal req with
    | .error cause => (.returned ⟨some (.encoding cause), none⟩, uc, w)
    | .ok reqBytes =>
      match invokeLoop connectFn ctx reqBytes sends uc w with
      | (.returned (.ok resBytes), uc, w) => (.returned (resolve codec resBytes), uc, w)
      | (.returned (.error err), uc, w) => (.returned ⟨some err, none⟩, uc, w)
      | (.panicked, uc, w) => (.panicked, uc, w)
      | (.blocked, uc, w) => (.blocked, uc, w)

/-- Method `(*UniClientConn).Invoke`.  `Lock` on a held mutex never returns; the
deferred `Unlock` runs when the body returns and when it panics. -/
def Invoke {Args Reply : Type} (codec : Codec Args Reply) (connectFn : ConnectFn)
    (ctx : Context) (callID method : String) (args : Args) (sends : List (Option String))
    (uc : UniClientConn) (w : World) :
    Status (InvokeResult Reply) × UniClientConn × World :=
  if uc.connMu then (.blocked, uc, w)
  else
    match invokeBody codec connectFn ctx callID method args sends
        { uc with connMu := true } (w.emit .lock) with
    | (.blocked, uc, w) => (.blocked, uc, w)
    | (st, uc, w) => (st, { uc with connMu := false }, w.emit .unlock)

/-- Method `(*UniClientConn).Close`, given the outcome of `uc.conn.Close()`
(`none` is success). -/
def Close (outcome : Option String) (uc : UniClientConn) (w : World) :
    Status (Option Error) × UniClientConn × World :=
  if uc.connMu then (.blocked, uc, w)
  else
    let w := (w.emit .lock).emit (.loadConn true)
    match uc.conn with
    | none => (.panicked, { uc with connMu := false }, w.emit .unlock)
    | some h =>
      (.returned (outcome.map .close), { uc with connMu := false },
        (w.emit (.closeConn h)).emit .unlock)

/-! ## Reading a trace -/

/-- The duration of a timer event. -/
def Event.wait? : Event → Option Int
  | .after d => some d
  | _ => none

/-- The handle and the bytes of a send. -/
def Event.write? : Event → Option (Conn × Bytes)
  | .writeMessage h p => some (h, p)
  | _ => none

/-- The handle of a receive. -/
def Event.read? : Event → Option Conn
  | .readMessage h => some h
  | _ => none

/-- The handle of an assignment to `uc.conn`. -/
def Event.store? : Event → Option (Option Conn)
  | .storeConn _ c => some c
  | _ => none

/-- Whether the event is a call of one of the four transport methods that
`Invoke` uses: the two deadline setters, the send and the receive. -/
def Event.isTransport : Event → Bool
  | .setWriteDeadline _ _ => true
  | .writeMessage _ _ => true
  | .setReadDeadline _ _ => true
  | .readMessage _ => true
  | _ => false

/-- Whether the event sets a deadline. -/
def Event.isSetDeadline : Event → Bool
  | .setWriteDeadline _ _ => true
  | .setReadDeadline _ _ => true
  | _ => false

/-- Whether the event reads or assigns `uc.conn` while `connMu` is not held. -/
def Event.isUnguarded : Event → Bool
  | .loadConn held => !held
  | .storeConn held _ => !held
  | _ => false

/-- Whether the event is one of the calls of the retry loop: a dial attempt, a
warning, a timer. -/
def Event.isRetry : Event → Bool
  | .dialContext => true
  | .warnf _ _ => true
  | .after _ => true
  | _ => false

/-- The durations of the timers armed, in order: the waits of the retry loop. -/
def waits (t : List Event) : List Int := t.filterMap Event.wait?

/-- The sends made, in order: the handle and the bytes of each `WriteMessage`. -/
def writes (t : List Event) : List (Conn × Bytes) := t.filterMap Event.write?

/-- The handles of the `ReadMessage` calls made, in order. -/
def reads (t : List Event) : List Conn := t.filterMap Event.read?

/-- The values assigned to `uc.conn`, in order. -/
def stores (t : List Event) : List (Option Conn) := t.filterMap Event.store?

/-- The transport calls of a trace, in order. -/
def transportCalls (t : List Event) : List Event := t.filter Event.isTransport

/-- One use of the transport by `Invoke`: a send of bytes on a handle, or a
receive on a handle. -/
inductive TransportOp where
  | send (h : Conn) (p : Bytes)
  | recv (h : Conn)
  deriving DecidableEq, Repr

/-- The transport calls of one use under a context with this deadline: the
matching deadline is set on the same handle first when there is a deadline. -/
def TransportOp.calls (deadline : Option Time) : TransportOp → List Event
  | .send h p =>
    match deadline with
    | some d => [.setWriteDeadline h d, .writeMessage h p]
    | none => [.writeMessage h p]
  | .recv h =>
    match deadline with
    | some d => [.setReadDeadline h d, .readMessage h]
    | none => [.readMessage h]

/-- What a stretch of `Invoke` that makes no transport call leaves unchanged:
the receive script is untouched, and the calls it adds are no transport calls
and, when `connMu` is held (`mu`), no unguarded access to `uc.conn`. -/
def Frame (mu : Bool) (w w' : World) : Prop :=
  w'.recvs = w.recvs ∧
    ∃ t, w'.trace = w.trace ++ t ∧
      ∀ e ∈ t, e.isTransport = false ∧ (mu = true → e.isUnguarded = false)

/-- The calls of `w'` extend those of `w` by calls none of which reads or
assigns `uc.conn` without the mutex. -/
def Guarded (w w' : World) : Prop :=
  ∃ t, w'.trace = w.trace ++ t ∧ ∀ e ∈ t, e.isUnguarded = false

/-! ## The backoff sequence -/

/-- The wait the retry loop uses at its failed attempt number `k`, counted from
0: the value of `reconnectWait` after `k` rounds of the loop. -/
def waitAt : Nat → Int
  | 0 => second
  | k + 1 => max (mulDuration (waitAt k) 2) minute

/-- The calls of the failed rounds of the retry loop, one round per cause of
failure, that start with the wait `d`. -/
def failedRounds : Int → List String → List Event
  | _, [] => []
  | d, cause :: causes =>
    [.dialContext, .warnf "error connecting %v, waiting then retrying" (.dialing cause),
        .after d] ++
      failedRounds (max (mulDuration d 2) minute) causes

/-- The wait sequence as the specification words it: the `k`-th wait, counted
from 1, is `min(2^(k-1), 60)` seconds. -/
def specWait (k : Nat) : Int := min (2 ^ (k - 1)) 60 * second

/-! ## Calls that are retried -/

/-- How a round of `Invoke`'s loop fails: at the send, or at the receive. -/
inductive Fault where
  | write (cause : String)
  | read (cause : String)
  deriving DecidableEq, Repr

/-- One failed round of `Invoke`'s loop that a successful reconnect follows: the
failure, the causes of the dial attempts that fail before the reconnect succeeds,
and the fresh handle it ends with. -/
structure FailedRound where
  fault : Fault
  dialFailures : List String
  fresh : Conn
  deriving DecidableEq, Repr

/-- The outcomes of the sends when these rounds fail and a last round succeeds. -/
def sendScript : List FailedRound → List (Option String)
  | [] => [none]
  | ⟨.write cause, _, _⟩ :: rs => some cause :: sendScript rs
  | ⟨.read _, _, _⟩ :: rs => none :: sendScript rs

/-- The outcomes of the receives when these rounds fail and the last round
receives `b`. -/
def recvScript (b : Bytes) : List FailedRound → List (Except String Bytes)
  | [] => [.ok b]
  | ⟨.write _, _, _⟩ :: rs => recvScript b rs
  | ⟨.read cause, _, _⟩ :: rs => .error cause :: recvScript b rs

/-- The outcomes of the dial attempts of the reconnects of these rounds. -/
def dialScript : List FailedRound → List (Except String Conn)
  | [] => []
  | r :: rs => r.dialFailures.map .error ++ .ok r.fresh :: dialScript rs

/-- The number of times these rounds look at the context: once at each failure of
`Invoke`'s loop and once at each failed dial of its reconnect. -/
def observations : List FailedRound → Nat
  | [] => 0
  | r :: rs => r.dialFailures.length + 1 + observations rs

/-- The handle in use after these rounds, starting from `h0`. -/
def lastHandle (h0 : Conn) : List FailedRound → Conn
  | [] => h0
  | r :: rs => lastHandle r.fresh rs

/-- One send of `rb` per round, the last one included, each on the handle that
the reconnect before it installed. -/
def roundWrites (rb : Bytes) (h0 : Conn) : List FailedRound → List (Conn × Bytes)
  | [] => [(h0, rb)]
  | r :: rs => (h0, rb) :: roundWrites rb r.fresh rs

/-- One receive per round whose send succeeded, on the handle of that round. -/
def roundReads (h0 : Conn) : List FailedRound → List Conn
  | [] => [h0]
  | ⟨.write _, _, fresh⟩ :: rs => roundReads fresh rs
  | ⟨.read _, _, fresh⟩ :: rs => h0 :: roundReads fresh rs

/-! ## Concrete inputs -/

/-- An initial world: nothing observed, nothing called. -/
def World.init (dials : List (Except String Conn)) (recvs : List (Except String Bytes)) : World :=
  { obs := 0, dials := dials, recvs := recvs, trace := [] }

/-- A serialiser for concrete runs: arguments and replies are numbers;
received bytes `[0]` do not deserialise, `[1, n]` is a Response with payload `[n]`,
`[2]` a Response without payload, `[3]` a Request, anything else has no exchange set. -/
def demoCodec : Codec Nat Nat where
  newRequest := fun callID method n => .ok ⟨.request ⟨callID, method, [n]⟩⟩
  marshal := fun _ => .ok [7, 7]
  unmarshalMessage := fun b =>
    match b with
    | [0] => .error "malformed"
    | [1, n] => .ok ⟨.response (some ⟨"id", some [n]⟩)⟩
    | [2] => .ok ⟨.response (some ⟨"id", none⟩)⟩
    | [3] => .ok ⟨.request ⟨"id", "m", []⟩⟩
    | _ => .ok ⟨.unset⟩
  unmarshalReply := fun p =>
    match p with
    | [n] => .ok n
    | _ => .error "bad reply"

/-- A serialiser whose `message.NewRequest` fails on every argument. -/
def refusingCodec : Codec Nat Nat where
  newRequest := fun _ _ _ => .error "cannot marshal args"
  marshal := fun _ => .ok []
  unmarshalMessage := fun _ => .ok ⟨.unset⟩
  unmarshalReply := fun _ => .ok 0

/-! ## Basic facts -/

@[simp] theorem emit_obs (w : World) (e : Event) : (w.emit e).obs = w.obs := rfl

@[simp] theorem emit_dials (w : World) (e : Event) : (w.emit e).dials = w.dials := rfl

@[simp] theorem emit_recvs (w : World) (e : Event) : (w.emit e).recvs = w.recvs := rfl

@[simp] theorem emit_trace (w : World) (e : Event) : (w.emit e).trace = w.trace ++ [e] := rfl

@[simp] theorem observe_obs (w : World) : w.observe.obs = w.obs + 1 := rfl

@[simp] theorem observe_dials (w : World) : w.observe.dials = w.dials := rfl

@[simp] theorem observe_recvs (w : World) : w.observe.recvs = w.recvs := rfl

@[simp] theorem observe_trace (w : World) : w.observe.trace = w.trace := rfl

theorem doneAt_live (ctx : Context) (h : ctx.liveFor = none) (n : Nat) :
    ctx.doneAt n = false := by
  simp [Context.doneAt, h]

/-- An `int64` value is left alone by the reduction. -/
theorem wrapInt64_of_range (x : Int) (h0 : -(2 ^ 63) ≤ x) (h1 : x < 2 ^ 63) :
    wrapInt64 x = x := by
  unfold wrapInt64
  rw [Int.emod_eq_of_lt (by omega) (by omega)]
  omega

/-- Doubling a duration below `2^62` nanoseconds does not overflow. -/
theorem mulDuration_two (d : Int) (h0 : 0 ≤ d) (h1 : d < 2 ^ 62) :
    mulDuration d 2 = 2 * d := by
  unfold mulDuration
  rw [wrapInt64_of_range _ (by omega) (by omega)]
  omega

/-- The backoff step never yields less than a minute. -/
theorem minute_le_max (d : Int) : minute ≤ max d minute := by
  unfold max
  split <;> omega

theorem minute_le_waitAt_succ (k : Nat) : minute ≤ waitAt (k + 1) :=
  minute_le_max _

/-- Before the doubling overflows, the wait after `j + 1` failures is
`60 * 2^j` seconds. -/
theorem waitAt_succ_eq (j : Nat) (hj : j ≤ 27) : waitAt (j + 1) = 60 * 2 ^ j * second := by
  induction j with
  | zero => decide
  | succ j ih =>
    have hj27 : j ≤ 27 := by omega
    have ih := ih hj27
    have hpow : (2 : Int) ^ j ≤ 2 ^ 26 := by
      have : (2 : Nat) ^ j ≤ 2 ^ 26 := Nat.pow_le_pow_right (by decide) (by omega)
      exact_mod_cast this
    have hpos : (0 : Int) < 2 ^ j := by positivity
    show max (mulDuration (waitAt (j + 1)) 2) minute = 60 * 2 ^ (j + 1) * second
    rw [ih, mulDuration_two _ (by unfold second; positivity) (by unfold second; omega)]
    unfold max minute second
    rw [pow_succ]
    split <;> omega

/-- Up to the 28th wait the Go product `reconnectWait*2` is the exact double. -/
theorem mulDuration_waitAt (k : Nat) (hk : k ≤ 27) : mulDuration (waitAt k) 2 = 2 * waitAt k := by
  cases k with
  | zero => decide
  | succ j =>
    have hpow : (2 : Int) ^ j ≤ 2 ^ 26 := by
      have : (2 : Nat) ^ j ≤ 2 ^ 26 := Nat.pow_le_pow_right (by decide) (by omega)
      exact_mod_cast this
    have hpos : (0 : Int) < 2 ^ j := by positivity
    rw [waitAt_succ_eq j (by omega)]
    exact mulDuration_two _ (by unfold second; positivity) (by unfold second; omega)

/-! ## The retry loop -/

/-- While the context is seen live at each wait, failed dials followed by a
successful one make the loop return the fresh handle after one failed round per
failure. -/
theorem retryLoop_failed_rounds (ctx : Context) (c : Conn)
    (rest : List (Except String Conn)) :
    ∀ (causes : List String) (d : Int) (w : World),
      (∀ i, i < causes.length → ctx.doneAt (w.obs + i) = false) →
      retryLoop ctx (causes.map Except.error ++ Except.ok c :: rest) d w =
        (some (some c, none),
          { obs := w.obs + causes.length, dials := rest, recvs := w.recvs,
            trace := w.trace ++ failedRounds d causes ++ [.dialContext] }) := by
  intro causes
  induction causes with
  | nil =>
    intro d w _
    simp [retryLoop, connect, World.emit, failedRounds]
  | cons cause causes ih =>
    intro d w hl
    have h0 : ctx.doneAt w.obs = false := hl 0 (by simp)
    simp only [List.map_cons, List.cons_append, retryLoop, connect]
    simp only [emit_obs, h0, Bool.false_eq_true, if_false, List.append_eq]
    rw [ih]
    · simp [World.emit, World.observe, failedRounds]
      omega
    · intro i hi
      have := hl (i + 1) (by simpa using hi)
      simpa [Nat.add_assoc, Nat.add_comm 1 i] using this

theorem waits_append (s t : List Event) : waits (s ++ t) = waits s ++ waits t := by
  simp [waits]

/-- The timers of the failed rounds that start at attempt `i` carry the waits
`waitAt i`, `waitAt (i + 1)`, ... -/
theorem waits_failedRounds (causes : List String) : ∀ i : Nat,
    waits (failedRounds (waitAt i) causes) = (List.range' i causes.length).map waitAt := by
  induction causes with
  | nil => intro i; simp [failedRounds, waits]
  | cons cause causes ih =>
    intro i
    have h := ih (i + 1)
    rw [waitAt] at h
    simp only [failedRounds, waits_append, h, List.length_cons, List.range'_succ,
      List.map_cons]
    simp [waits, Event.wait?]

/-- The waits of a whole run of the retry loop under dial failures, each wait
seeing the context live. -/
theorem waits_retry_live (ctx : Context) (causes : List String)
    (c : Conn) (rest : List (Except String Conn)) (recvs : List (Except String Bytes))
    (hlive : ∀ i, i < causes.length → ctx.doneAt i = false) :
    waits (retryConnectWithBackoff ctx
        (World.init (causes.map Except.error ++ Except.ok c :: rest) recvs)).2.trace =
      (List.range causes.length).map waitAt := by
  unfold retryConnectWithBackoff World.init
  rw [show second = waitAt 0 from rfl]
  rw [retryLoop_failed_rounds ctx c rest causes (waitAt 0) _
    (fun i hi => by simpa using hlive i hi)]
  simp only [List.nil_append, waits_append, waits_failedRounds, List.range_eq_range']
  simp [waits, Event.wait?]

/-- The waits of a whole run of the retry loop under dial failures and a context
that is never cancelled. -/
theorem waits_retry (ctx : Context) (hlive : ctx.liveFor = none) (causes : List String)
    (c : Conn) (rest : List (Except String Conn)) (recvs : List (Except String Bytes)) :
    waits (retryConnectWithBackoff ctx
        (World.init (causes.map Except.error ++ Except.ok c :: rest) recvs)).2.trace =
      (List.range causes.length).map waitAt :=
  waits_retry_live ctx causes c rest recvs (fun i _ => doneAt_live ctx hlive i)

/-! ## The waits of the retry loop -/

theorem getElem?_map_range (f : Nat → Int) (n k : Nat) :
    ((List.range n).map f)[k]? = if k < n then some (f k) else none := by
  by_cases h : k < n
  · simp [h, List.getElem?_range]
  · simp [h]
    omega

/-- C1, counterexample: after two failed dials the second wait is 60 seconds,
where the stated sequence `min(2^(k-1), 60)` has 2 seconds. -/
theorem second_wait_is_a_minute :
    (waits (retryConnectWithBackoff ⟨none, .canceled, none⟩
      (World.init [.error "refused", .error "refused", .ok 1] [])).2.trace)[1]? =
        some (60 * second) ∧
    specWait 2 = 2 * second ∧ 60 * second ≠ specWait 2 := by
  decide

/-- C1 (amended): when the dial fails N ≥ 1 consecutive times and the context is
never cancelled, the first wait of `retryConnectWithBackoff` is 1 second and its
`k`-th wait, for 2 ≤ k ≤ min(N, 29), is `60 * 2^(k-2)` seconds: 1s, 60s, 120s,
240s, ... -/
theorem backoff_wait_sequence (ctx : Context) (hlive : ctx.liveFor = none)
    (causes : List String) (c : Conn) (rest : List (Except String Conn))
    (recvs : List (Except String Bytes)) (k : Nat)
    (hk1 : 1 ≤ k) (hkN : k ≤ causes.length) (hk29 : k ≤ 29) :
    (waits (retryConnectWithBackoff ctx
        (World.init (causes.map Except.error ++ Except.ok c :: rest) recvs)).2.trace)[k - 1]? =
      some (if k = 1 then second else 60 * 2 ^ (k - 2) * second) := by
  rw [waits_retry ctx hlive, getElem?_map_range, if_pos (by omega)]
  obtain ⟨j, rfl⟩ : ∃ j, k = j + 1 := ⟨k - 1, by omega⟩
  cases j with
  | zero => rfl
  | succ j =>
    have h := waitAt_succ_eq j (by omega)
    simp [h]

/-- C1 (amended) at a concrete input: three failed dials, third wait 120 seconds. -/
theorem backoff_wait_sequence_witness :
    (waits (retryConnectWithBackoff ⟨none, .canceled, none⟩
        (World.init (["refused", "reset", "refused"].map Except.error ++ Except.ok 4 :: [])
          [])).2.trace)[3 - 1]? =
      some (if 3 = 1 then second else 60 * 2 ^ (3 - 2) * second) :=
  backoff_wait_sequence ⟨none, .canceled, none⟩ rfl ["refused", "reset", "refused"] 4 [] [] 3
    (by decide) (by decide) (by decide)

theorem max_minute_eq (a : Int) : max a minute = Max.max a 60000000000 := by
  unfold max minute second
  split <;> omega

theorem le_max_step (a : Int) : a ≤ max a minute := by
  unfold max
  split <;> omega

theorem waitAt_nonneg (k : Nat) : 0 ≤ waitAt k := by
  cases k with
  | zero => decide
  | succ j =>
    have h := minute_le_waitAt_succ j
    unfold minute second at h
    omega

theorem waitAt_28 : waitAt 28 = 8053063680000000000 := by
  rw [waitAt_succ_eq 27 (by decide)]
  norm_num [second]

theorem waitAt_29 : waitAt 29 = 60000000000 := by
  show max (mulDuration (waitAt 28) 2) minute = 60000000000
  rw [waitAt_28]
  norm_num [max, mulDuration, wrapInt64, minute, second]

/-- C2, counterexample: under 30 consecutive dial failures the 29th wait is
8053063680000000000 ns and the wait after it is 60000000000 ns, which is not the
larger of twice the 29th wait (16106127360000000000 ns) and one minute. -/
theorem thirtieth_wait_is_not_the_double :
    (waits (retryConnectWithBackoff ⟨none, .canceled, none⟩
      (World.init ((List.replicate 30 "refused").map Except.error ++ [Except.ok 1])
        [])).2.trace)[28]? = some 8053063680000000000 ∧
    (waits (retryConnectWithBackoff ⟨none, .canceled, none⟩
      (World.init ((List.replicate 30 "refused").map Except.error ++ [Except.ok 1])
        [])).2.trace)[29]? = some 60000000000 ∧
    (60000000000 : Int) ≠ Max.max (2 * 8053063680000000000) 60000000000 := by
  rw [waits_retry ⟨none, .canceled, none⟩ rfl]
  refine ⟨?_, ?_, by decide⟩
  · rw [getElem?_map_range, if_pos (by simp), waitAt_28]
  · rw [getElem?_map_range, if_pos (by simp), waitAt_29]

/-- C2 (amended): under any number of consecutive dial failures whose waits see the
context live, `retryConnectWithBackoff` waits once per failure; its first wait is
1000000000 ns (one second); every wait after the first is at least 60000000000 ns
(one minute); and each of the waits up to the 29th is the larger of twice the wait
before it and one minute. -/
theorem backoff_recurrence (ctx : Context) (causes : List String)
    (c : Conn) (rest : List (Except String Conn)) (recvs : List (Except String Bytes))
    (hlive : ∀ i, i < causes.length → ctx.doneAt i = false) :
    (waits (retryConnectWithBackoff ctx
        (World.init (causes.map Except.error ++ Except.ok c :: rest) recvs)).2.trace).length =
      causes.length ∧
    (∀ cur, (waits (retryConnectWithBackoff ctx
        (World.init (causes.map Except.error ++ Except.ok c :: rest) recvs)).2.trace)[0]? =
          some cur → cur = 1000000000) ∧
    (∀ k cur next,
      (waits (retryConnectWithBackoff ctx
        (World.init (causes.map Except.error ++ Except.ok c :: rest) recvs)).2.trace)[k]? =
          some cur →
      (waits (retryConnectWithBackoff ctx
        (World.init (causes.map Except.error ++ Except.ok c :: rest) recvs)).2.trace)[k + 1]? =
          some next →
      60000000000 ≤ next ∧ (k ≤ 27 → next = Max.max (2 * cur) 60000000000)) := by
  rw [waits_retry_live ctx causes c rest recvs hlive]
  refine ⟨by simp, ?_, ?_⟩
  · intro cur h
    rw [getElem?_map_range] at h
    split at h
    · exact (Option.some.inj h).symm
    · cases h
  · intro k cur next h1 h2
    rw [getElem?_map_range] at h1 h2
    split at h1
    · split at h2
      · cases Option.some.inj h1
        cases Option.some.inj h2
        refine ⟨?_, fun hk => ?_⟩
        · have h := minute_le_waitAt_succ k
          unfold minute second at h
          omega
        · show max (mulDuration (waitAt k) 2) minute = _
          rw [mulDuration_waitAt k hk, max_minute_eq]
      · cases h2
    · cases h1

/-- C2 (amended) at a concrete input: three failed dials under a context that is
cancelled only later; the second wait is a minute and the third twice that. -/
theorem backoff_recurrence_witness :
    waits (retryConnectWithBackoff ⟨none, .canceled, some 3⟩
      (World.init (["refused", "reset", "refused"].map Except.error ++ Except.ok 4 :: [])
        [])).2.trace = [1000000000, 60000000000, 120000000000] ∧
    ((60000000000 : Int) ≤ 120000000000 ∧
      ((1 : Nat) ≤ 27 → (120000000000 : Int) = Max.max (2 * 60000000000) 60000000000)) :=
  ⟨by decide,
    (backoff_recurrence ⟨none, .canceled, some 3⟩ ["refused", "reset", "refused"] 4 [] []
      (by decide)).2.2 1 60000000000 120000000000 (by decide) (by decide)⟩

/-- C3, counterexample: under 30 consecutive dial failures the 29th wait is
8053063680000000000 ns and the 30th, whose doubling wraps around in `int64`, is
60000000000 ns, which is less. -/
theorem backoff_wait_drops_after_overflow :
    (waits (retryConnectWithBackoff ⟨none, .canceled, none⟩
      (World.init ((List.replicate 30 "refused").map Except.error ++ [Except.ok 1])
        [])).2.trace)[28]? = some 8053063680000000000 ∧
    (waits (retryConnectWithBackoff ⟨none, .canceled, none⟩
      (World.init ((List.replicate 30 "refused").map Except.error ++ [Except.ok 1])
        [])).2.trace)[29]? = some 60000000000 ∧
    (60000000000 : Int) < 8053063680000000000 := by
  rw [waits_retry ⟨none, .canceled, none⟩ rfl]
  refine ⟨?_, ?_, by decide⟩
  · rw [getElem?_map_range, if_pos (by simp), waitAt_28]
  · rw [getElem?_map_range, if_pos (by simp), waitAt_29]

/-- C3 (amended): over its first 29 waits the wait sequence of
`retryConnectWithBackoff` never decreases: under consecutive dial failures whose
waits see the context live, for 1 ≤ k ≤ 28 the `(k+1)`-th wait, when there is one,
is at least the `k`-th, the waits being the `time.Duration` values that the code
passes to `time.After`. -/
theorem backoff_nondecreasing (ctx : Context) (causes : List String)
    (c : Conn) (rest : List (Except String Conn)) (recvs : List (Except String Bytes))
    (k : Nat) (cur next : Int)
    (hlive : ∀ i, i < causes.length → ctx.doneAt i = false)
    (hk1 : 1 ≤ k) (hk28 : k ≤ 28)
    (hcur : (waits (retryConnectWithBackoff ctx
        (World.init (causes.map Except.error ++ Except.ok c :: rest) recvs)).2.trace)[k - 1]? =
          some cur)
    (hnext : (waits (retryConnectWithBackoff ctx
        (World.init (causes.map Except.error ++ Except.ok c :: rest) recvs)).2.trace)[k]? =
          some next) :
    cur ≤ next := by
  rw [waits_retry_live ctx causes c rest recvs hlive, getElem?_map_range] at hcur hnext
  obtain ⟨j, rfl⟩ : ∃ j, k = j + 1 := ⟨k - 1, by omega⟩
  split at hcur
  · split at hnext
    · cases Option.some.inj hcur
      cases Option.some.inj hnext
      have h0 := waitAt_nonneg j
      have h1 := le_max_step (mulDuration (waitAt j) 2)
      rw [mulDuration_waitAt j (by omega)] at h1
      show waitAt j ≤ max (mulDuration (waitAt j) 2) minute
      rw [mulDuration_waitAt j (by omega)]
      simp only [Nat.add_sub_cancel] at h0 ⊢
      omega
    · cases hnext
  · cases hcur

/-- C3 (amended) at a concrete input: three failed dials under a context that is
cancelled only later; the third wait, 120 s, is at least the second, 60 s. -/
theorem backoff_nondecreasing_witness :
    waits (retryConnectWithBackoff ⟨none, .canceled, some 3⟩
      (World.init (["refused", "reset", "refused"].map Except.error ++ Except.ok 4 :: [])
        [])).2.trace = [1000000000, 60000000000, 120000000000] ∧
    (60000000000 : Int) ≤ 120000000000 :=
  ⟨by decide,
    backoff_nondecreasing ⟨none, .canceled, some 3⟩ ["refused", "reset", "refused"] 4 [] [] 2
      60000000000 120000000000 (by decide) (by decide) (by decide) (by decide) (by decide)⟩

/-! ## What the retry loop can return -/

/-- When the retry loop returns, it returns either a present handle and no error,
or no handle and the context's error, the latter only under a context that can be
cancelled. -/
theorem retryLoop_status (ctx : Context) : ∀ (dials : List (Except String Conn)) (d : Int)
    (w : World),
    (retryLoop ctx dials d w).1 = none ∨
    (∃ h, (retryLoop ctx dials d w).1 = some (some h, none)) ∨
    ((retryLoop ctx dials d w).1 = some (none, some (.context ctx.err)) ∧
      ctx.liveFor ≠ none) := by
  intro dials
  induction dials with
  | nil => intro d w; left; rfl
  | cons outcome rest ih =>
    intro d w
    cases outcome with
    | ok h => right; left; exact ⟨h, rfl⟩
    | error cause =>
      simp only [retryLoop, connect]
      split
      · rename_i hdone
        right; right
        refine ⟨rfl, fun hl => ?_⟩
        rw [doneAt_live ctx hl] at hdone
        cases hdone
      · exact ih _ _

/-- Once the context is done while dials keep failing, the loop returns the
context's error. -/
theorem retryLoop_cancelled (ctx : Context) (k : Nat) (hk : ctx.liveFor = some k)
    (rest : List (Except String Conn)) :
    ∀ (causes : List String) (d : Int) (w : World), causes ≠ [] →
      k < w.obs + causes.length →
      (retryLoop ctx (causes.map Except.error ++ rest) d w).1 =
        some (none, some (.context ctx.err)) := by
  intro causes
  induction causes with
  | nil => intro d w h; exact absurd rfl h
  | cons cause causes ih =>
    intro d w _ hlt
    simp only [List.map_cons, List.cons_append, retryLoop, connect, List.append_eq]
    split
    · rfl
    · rename_i hdone
      simp only [Context.doneAt, hk, emit_obs, decide_eq_true_eq] at hdone
      have hne : causes ≠ [] := by
        intro h
        subst h
        simp at hlt
        omega
      apply ih _ _ hne
      simp at hlt ⊢
      omega

/-- While the context is seen live at each wait, failed dials alone leave the
loop waiting for the next attempt. -/
theorem retryLoop_all_failed (ctx : Context) :
    ∀ (causes : List String) (d : Int) (w : World),
      (∀ i, i < causes.length → ctx.doneAt (w.obs + i) = false) →
      (retryLoop ctx (causes.map Except.error) d w).1 = none := by
  intro causes
  induction causes with
  | nil => intro d w _; rfl
  | cons cause causes ih =>
    intro d w hl
    have h0 : ctx.doneAt w.obs = false := hl 0 (by simp)
    simp only [List.map_cons, retryLoop, connect, emit_obs, h0, Bool.false_eq_true, if_false]
    apply ih
    intro i hi
    have := hl (i + 1) (by simpa using hi)
    simpa [Nat.add_assoc, Nat.add_comm 1 i] using this

theorem dial_status (connectFn : ConnectFn) (ctx : Context) (uc : UniClientConn) (w : World) :
    (Dial connectFn ctx uc w).1 =
      match (connectFn ctx w).1 with
      | some r => .returned r.2
      | none => .blocked := by
  unfold Dial
  rcases h : connectFn ctx w with ⟨st, w1⟩
  cases st <;> rfl

/-- C4, counterexample: the context is done before `Dial` starts and the one
dial attempt succeeds: `Dial` returns no error, not the context's error. -/
theorem dial_succeeds_under_done_context :
    Context.doneAt ⟨none, .canceled, some 0⟩ 0 = true ∧
    Dial tlsConnectFn ⟨none, .canceled, some 0⟩ NewTLSUniClientConn
        (World.init [.ok 3] []) =
      (.returned none, ⟨false, some 3⟩,
        ⟨0, [], [], [.dialContext, .storeConn false (some 3)]⟩) := by
  decide

/-- C4 (amended): for every sequence of dial outcomes, an error returned by `Dial`
(bound to `retryConnectWithBackoff`) is the context's error, never the wrapped
error of a dial attempt; if the context is found done at the wait after a failed
dial attempt, all attempts until then having failed, `Dial` returns exactly the
context's error; as long as the waits see the context live, failed dials alone
never make `Dial` return, and a dial attempt that succeeds after them makes `Dial`
return no error and store its handle; a successful attempt is returned without
the context being looked at. -/
theorem dial_error_is_context_error (ctx : Context) (uc : UniClientConn) (w : World) :
    (∀ e, (Dial tlsConnectFn ctx uc w).1 = .returned (some e) → e = .context ctx.err) ∧
    (∀ (k : Nat) (causes : List String) (rest : List (Except String Conn)),
      ctx.liveFor = some k → causes ≠ [] → k < w.obs + causes.length →
      w.dials = causes.map Except.error ++ rest →
      (Dial tlsConnectFn ctx uc w).1 = .returned (some (.context ctx.err))) ∧
    (∀ causes : List String, (∀ i, i < causes.length → ctx.doneAt (w.obs + i) = false) →
      w.dials = causes.map Except.error →
      (Dial tlsConnectFn ctx uc w).1 = .blocked) ∧
    (∀ (causes : List String) (c : Conn) (rest : List (Except String Conn)),
      (∀ i, i < causes.length → ctx.doneAt (w.obs + i) = false) →
      w.dials = causes.map Except.error ++ Except.ok c :: rest →
      (Dial tlsConnectFn ctx uc w).1 = .returned none ∧
      (Dial tlsConnectFn ctx uc w).2.1.conn = some c) := by
  refine ⟨?_, ?_, ?_, ?_⟩
  · intro e he
    rw [dial_status] at he
    rcases retryLoop_status ctx w.dials second w with h | ⟨c, h⟩ | ⟨h, _⟩ <;>
      simp only [tlsConnectFn, retryConnectWithBackoff, h] at he
    · cases he
    · cases he
    · cases he
      rfl
  · intro k causes rest hk hne hlt hd
    rw [dial_status]
    simp only [tlsConnectFn, retryConnectWithBackoff, hd,
      retryLoop_cancelled ctx k hk rest causes second w hne hlt]
  · intro causes hlive hd
    rw [dial_status]
    simp only [tlsConnectFn, retryConnectWithBackoff, hd,
      retryLoop_all_failed ctx causes second w hlive]
  · intro causes c rest hlive hd
    simp only [Dial, tlsConnectFn, retryConnectWithBackoff, hd,
      retryLoop_failed_rounds ctx c rest causes second w hlive, and_self]

/-- C4 (amended) at concrete inputs, under a context that is live for one wait: two
failed dials make `Dial` return the context's error at the second wait; one failed
dial and a successful one make it return no error with the handle stored. -/
theorem dial_error_is_context_error_witness :
    (Dial tlsConnectFn ⟨none, .canceled, some 1⟩ NewTLSUniClientConn
      (World.init [.error "refused", .error "refused", .ok 3] [])).1 =
        .returned (some (.context .canceled)) ∧
    ((Dial tlsConnectFn ⟨none, .canceled, some 1⟩ NewTLSUniClientConn
      (World.init [.error "refused", .ok 3] [])).1 = .returned none ∧
     (Dial tlsConnectFn ⟨none, .canceled, some 1⟩ NewTLSUniClientConn
      (World.init [.error "refused", .ok 3] [])).2.1.conn = some 3) :=
  ⟨(dial_error_is_context_error ⟨none, .canceled, some 1⟩ NewTLSUniClientConn
    (World.init [.error "refused", .error "refused", .ok 3] [])).2.1
      1 ["refused", "refused"] [.ok 3] rfl (by decide) (by decide) rfl,
   (dial_error_is_context_error ⟨none, .canceled, some 1⟩ NewTLSUniClientConn
    (World.init [.error "refused", .ok 3] [])).2.2.2
      ["refused"] 3 [] (by decide) rfl⟩

/-! ## The reconnect step of `Invoke` -/

/-- The retry loop touches neither the receive script nor the transport: all it
adds to the trace are dial attempts, warnings and timers. -/
theorem retryLoop_frame (ctx : Context) : ∀ (dials : List (Except String Conn)) (d : Int)
    (w : World),
    (retryLoop ctx dials d w).2.recvs = w.recvs ∧
      ∃ t, (retryLoop ctx dials d w).2.trace = w.trace ++ t ∧ ∀ e ∈ t, e.isRetry = true := by
  intro dials
  induction dials with
  | nil =>
    intro d w
    exact ⟨rfl, [.dialContext], rfl, by simp [Event.isRetry]⟩
  | cons outcome rest ih =>
    intro d w
    cases outcome with
    | ok h => exact ⟨rfl, [.dialContext], rfl, by simp [Event.isRetry]⟩
    | error cause =>
      simp only [retryLoop, connect]
      split
      · exact ⟨rfl, [.dialContext,
          .warnf "error connecting %v, waiting then retrying" (.dialing cause), .after d,
          .warnf "ctx error %v reconnecting" (.context ctx.err)],
          by simp [World.emit, World.observe], by simp [Event.isRetry]⟩
      · obtain ⟨hr, t, ht, hq⟩ := ih (max (mulDuration d 2) minute)
          (({ w.emit .dialContext with dials := rest }.emit
            (.warnf "error connecting %v, waiting then retrying" (.dialing cause))).emit
              (.after d)).observe
        refine ⟨hr, .dialContext ::
          .warnf "error connecting %v, waiting then retrying" (.dialing cause) ::
          .after d :: t, ?_, ?_⟩
        · rw [ht]
          simp [World.emit, World.observe]
        · intro e he
          simp only [List.mem_cons] at he
          rcases he with rfl | rfl | rfl | he
          · rfl
          · rfl
          · rfl
          · exact hq e he

theorem isRetry_quiet (mu : Bool) (e : Event) (h : e.isRetry = true) :
    e.isTransport = false ∧ (mu = true → e.isUnguarded = false) := by
  cases e <;> simp_all [Event.isRetry, Event.isTransport, Event.isUnguarded]

theorem Frame.refl (mu : Bool) (w : World) : Frame mu w w :=
  ⟨rfl, [], by simp, by simp⟩

theorem Frame.trans {mu : Bool} {w1 w2 w3 : World} (h12 : Frame mu w1 w2)
    (h23 : Frame mu w2 w3) : Frame mu w1 w3 := by
  obtain ⟨r12, t12, e12, q12⟩ := h12
  obtain ⟨r23, t23, e23, q23⟩ := h23
  refine ⟨r23.trans r12, t12 ++ t23, by rw [e23, e12, List.append_assoc], ?_⟩
  intro e he
  rcases List.mem_append.mp he with h | h
  · exact q12 e h
  · exact q23 e h

theorem Frame.emit (mu : Bool) (w : World) (e : Event) (ht : e.isTransport = false)
    (hg : mu = true → e.isUnguarded = false) : Frame mu w (w.emit e) :=
  ⟨rfl, [e], rfl, by simpa using ⟨ht, hg⟩⟩

/-- What the failure branch of `Invoke`'s loop does with the reconnect function
of `NewTLSUniClientConn`: it stays blocked in the reconnect, or returns the
context's error (only a context that can be cancelled allows this), or goes on
with a present fresh handle stored under the same mutex state. -/
theorem onTransportError_tls (ctx : Context) (what : String) (err : Error)
    (uc : UniClientConn) (w : World) :
    (∃ w', onTransportError tlsConnectFn ctx what err uc w = .inl (.blocked, uc, w') ∧
      Frame uc.connMu w w') ∨
    (∃ w', onTransportError tlsConnectFn ctx what err uc w =
        .inl (.returned (.error (.context ctx.err)), uc, w') ∧
      Frame uc.connMu w w' ∧ ctx.liveFor ≠ none) ∨
    (∃ h' w', onTransportError tlsConnectFn ctx what err uc w =
        .inr (⟨uc.connMu, some h'⟩, w') ∧ Frame uc.connMu w w') := by
  unfold onTransportError
  split
  · rename_i hdone
    right; left
    refine ⟨_, rfl, ?_, ?_⟩
    · exact ⟨rfl, [_], rfl, by simp [Event.isTransport, Event.isUnguarded]⟩
    · intro hl
      rw [doneAt_live ctx hl] at hdone
      cases hdone
  · rename_i hdone
    have hfirst : Frame uc.connMu w (w.observe.emit
        (.warnf ("received error %v " ++ what ++ " message, reconnecting") err)) :=
      ⟨rfl, [_], rfl, by simp [Event.isTransport, Event.isUnguarded]⟩
    obtain ⟨hr, t, ht, hq⟩ := retryLoop_frame ctx (w.observe.emit
        (.warnf ("received error %v " ++ what ++ " message, reconnecting") err)).dials second
        (w.observe.emit
        (.warnf ("received error %v " ++ what ++ " message, reconnecting") err))
    have hretry : Frame uc.connMu (w.observe.emit
        (.warnf ("received error %v " ++ what ++ " message, reconnecting") err))
        (retryLoop ctx (w.observe.emit
        (.warnf ("received error %v " ++ what ++ " message, reconnecting") err)).dials second
        (w.observe.emit
        (.warnf ("received error %v " ++ what ++ " message, reconnecting") err))).2 :=
      ⟨hr, t, ht, fun e he => isRetry_quiet _ e (hq e he)⟩
    have hall := hfirst.trans hretry
    rcases retryLoop_status ctx (w.observe.emit
        (.warnf ("received error %v " ++ what ++ " message, reconnecting") err)).dials second
        (w.observe.emit
        (.warnf ("received error %v " ++ what ++ " message, reconnecting") err))
      with h | ⟨c, h⟩ | ⟨h, hcan⟩
    · left
      simp only [tlsConnectFn, retryConnectWithBackoff]
      rcases hrl : retryLoop ctx _ second _ with ⟨st, w1⟩
      rw [hrl] at h hall
      simp only at h
      subst h
      exact ⟨w1, rfl, hall⟩
    · right; right
      simp only [tlsConnectFn, retryConnectWithBackoff]
      rcases hrl : retryLoop ctx _ second _ with ⟨st, w1⟩
      rw [hrl] at h hall
      simp only at h
      subst h
      refine ⟨c, _, rfl, hall.trans (Frame.emit _ _ _ rfl ?_)⟩
      intro hmu
      simp [Event.isUnguarded, hmu]
    · right; left
      simp only [tlsConnectFn, retryConnectWithBackoff]
      rcases hrl : retryLoop ctx _ second _ with ⟨st, w1⟩
      rw [hrl] at h hall
      simp only at h
      subst h
      exact ⟨w1, rfl, hall, hcan⟩

/-! ## The loop of `Invoke` -/

@[simp] theorem sendCalls_recvs (ctx : Context) (mu : Bool) (h : Conn) (rb : Bytes) (w : World) :
    (sendCalls ctx mu h rb w).recvs = w.recvs := by
  unfold sendCalls
  cases ctx.deadline <;> rfl

@[simp] theorem recvCalls_recvs (ctx : Context) (mu : Bool) (h : Conn) (w : World) :
    (recvCalls ctx mu h w).recvs = w.recvs := by
  unfold recvCalls
  cases ctx.deadline <;> rfl

theorem invokeLoop_nil_conn (cf : ConnectFn) (ctx : Context) (rb : Bytes)
    (sends : List (Option String)) (mu : Bool) (w : World) :
    invokeLoop cf ctx rb sends ⟨mu, none⟩ w = (.panicked, ⟨mu, none⟩, w.emit (.loadConn mu)) := by
  rcases sends with _ | ⟨_ | _, _⟩ <;> rfl

theorem invokeLoop_nil (cf : ConnectFn) (ctx : Context) (rb : Bytes) (mu : Bool) (h : Conn)
    (w : World) :
    invokeLoop cf ctx rb [] ⟨mu, some h⟩ w = (.blocked, ⟨mu, some h⟩, sendCalls ctx mu h rb w) :=
  rfl

theorem invokeLoop_write_failed (cf : ConnectFn) (ctx : Context) (rb : Bytes) (cause : String)
    (sends : List (Option String)) (mu : Bool) (h : Conn) (w : World) :
    invokeLoop cf ctx rb (some cause :: sends) ⟨mu, some h⟩ w =
      match onTransportError cf ctx "writing" (.write cause) ⟨mu, some h⟩
          (sendCalls ctx mu h rb w) with
      | .inl r => r
      | .inr (uc, w) => invokeLoop cf ctx rb sends uc w :=
  rfl

theorem invokeLoop_written (cf : ConnectFn) (ctx : Context) (rb : Bytes)
    (sends : List (Option String)) (mu : Bool) (h : Conn) (w : World) :
    invokeLoop cf ctx rb (none :: sends) ⟨mu, some h⟩ w =
      match (recvCalls ctx mu h (sendCalls ctx mu h rb w)).recvs with
      | [] => (.blocked, ⟨mu, some h⟩, recvCalls ctx mu h (sendCalls ctx mu h rb w))
      | .ok resBytes :: recvs =>
        (.returned (.ok resBytes), ⟨mu, some h⟩,
          { recvCalls ctx mu h (sendCalls ctx mu h rb w) with recvs := recvs })
      | .error cause :: recvs =>
        match onTransportError cf ctx "reading" (.read cause) ⟨mu, some h⟩
            { recvCalls ctx mu h (sendCalls ctx mu h rb w) with recvs := recvs } with
        | .inl r => r
        | .inr (uc, w) => invokeLoop cf ctx rb sends uc w :=
  rfl

/-- How the loop of `Invoke` can end with the reconnect function of
`NewTLSUniClientConn`: blocked, panicked on an absent handle, returning the
context's error (only under a context that can be cancelled), or leaving with
bytes that the receive script held. -/
theorem invokeLoop_tls_status (ctx : Context) (rb : Bytes) :
    ∀ (sends : List (Option String)) (uc : UniClientConn) (w : World),
      (invokeLoop tlsConnectFn ctx rb sends uc w).1 = .blocked ∨
      (invokeLoop tlsConnectFn ctx rb sends uc w).1 = .panicked ∨
      ((invokeLoop tlsConnectFn ctx rb sends uc w).1 = .returned (.error (.context ctx.err)) ∧
        ctx.liveFor ≠ none) ∨
      (∃ b, (invokeLoop tlsConnectFn ctx rb sends uc w).1 = .returned (.ok b) ∧
        Except.ok b ∈ w.recvs) := by
  intro sends
  induction sends with
  | nil =>
    rintro ⟨mu, _ | h⟩ w
    · right; left; rfl
    · left; rfl
  | cons s sends ih =>
    rintro ⟨mu, _ | h⟩ w
    · right; left; rw [invokeLoop_nil_conn]
    · cases s with
      | some cause =>
        rw [invokeLoop_write_failed]
        rcases onTransportError_tls ctx "writing" (.write cause) ⟨mu, some h⟩
            (sendCalls ctx mu h rb w) with ⟨w', he, _⟩ | ⟨w', he, _, hc⟩ | ⟨h', w', he, hf⟩
        · rw [he]; left; rfl
        · rw [he]; right; right; left; exact ⟨rfl, hc⟩
        · rw [he]
          have := ih ⟨mu, some h'⟩ w'
          rw [hf.1, sendCalls_recvs] at this
          exact this
      | none =>
        rw [invokeLoop_written]
        simp only [recvCalls_recvs, sendCalls_recvs]
        rcases hrec : w.recvs with _ | ⟨r, recvs⟩
        · left; rfl
        · cases r with
          | ok b => right; right; right; exact ⟨b, rfl, by simp⟩
          | error cause =>
            simp only
            rcases onTransportError_tls ctx "reading" (.read cause) ⟨mu, some h⟩
                { recvCalls ctx mu h (sendCalls ctx mu h rb w) with recvs := recvs }
              with ⟨w', he, _⟩ | ⟨w', he, _, hc⟩ | ⟨h', w', he, hf⟩
            · rw [he]; left; rfl
            · rw [he]; right; right; left; exact ⟨rfl, hc⟩
            · rw [he]
              have := ih ⟨mu, some h'⟩ w'
              rw [hf.1] at this
              rcases this with h1 | h1 | h1 | ⟨b, h1, h2⟩
              · left; exact h1
              · right; left; exact h1
              · right; right; left; exact h1
              · right; right; right
                exact ⟨b, h1, List.mem_cons_of_mem _ h2⟩

/-! ## The result of `Invoke` -/

theorem invoke_status {Args Reply : Type} (codec : Codec Args Reply) (cf : ConnectFn)
    (ctx : Context) (callID method : String) (args : Args) (sends : List (Option String))
    (uc : UniClientConn) (w : World) (hmu : uc.connMu = false) :
    (Invoke codec cf ctx callID method args sends uc w).1 =
      (invokeBody codec cf ctx callID method args sends { uc with connMu := true }
        (w.emit .lock)).1 := by
  unfold Invoke
  rw [if_neg (by simp [hmu])]
  rcases invokeBody codec cf ctx callID method args sends { uc with connMu := true }
    (w.emit .lock) with ⟨st, uc', w'⟩
  cases st <;> rfl

theorem invoke_locked {Args Reply : Type} (codec : Codec Args Reply) (cf : ConnectFn)
    (ctx : Context) (callID method : String) (args : Args) (sends : List (Option String))
    (uc : UniClientConn) (w : World) (hmu : uc.connMu = true) :
    Invoke codec cf ctx callID method args sends uc w = (.blocked, uc, w) := by
  unfold Invoke
  rw [if_pos hmu]

theorem invokeBody_status {Args Reply : Type} (codec : Codec Args Reply) (cf : ConnectFn)
    (ctx : Context) (callID method : String) (args : Args) (sends : List (Option String))
    (uc : UniClientConn) (w : World) (req : Message) (rb : Bytes)
    (hreq : codec.newRequest callID method args = .ok req) (hmar : codec.marshal req = .ok rb) :
    (invokeBody codec cf ctx callID method args sends uc w).1 =
      match (invokeLoop cf ctx rb sends uc w).1 with
      | .returned (.ok b) => .returned (resolve codec b)
      | .returned (.error e) => .returned ⟨some e, none⟩
      | .panicked => .panicked
      | .blocked => .blocked := by
  unfold invokeBody
  simp only [hreq, hmar]
  rcases invokeLoop cf ctx rb sends uc w with ⟨st, uc', w'⟩
  rcases st with (b | e) | _ | _ <;> rfl

/-- The errors the tail of `Invoke` can produce. -/
theorem resolve_err {Args Reply : Type} (codec : Codec Args Reply) (b : Bytes) (e : Error)
    (h : (resolve codec b).err = some e) :
    (∃ c, e = .decoding c) ∨ e = .new "response payload is nil" ∨
      e = .new "unexpected message type" := by
  unfold resolve at h
  split at h
  · left; exact ⟨_, (Option.some.inj h).symm⟩
  · split at h
    · right; left; exact (Option.some.inj h).symm
    · split at h
      · right; left; exact (Option.some.inj h).symm
      · split at h
        · left; exact ⟨_, (Option.some.inj h).symm⟩
        · cases h
    · right; right; exact (Option.some.inj h).symm

/-- C5: when the loop of `Invoke` leaves with received bytes `b`, `Invoke` returns,
and its result is decided by `b`: bytes that do not deserialise give the decoding
error; a Response exchange with a present payload gives the result of deserialising
the payload into the reply; a Response exchange with an absent payload (or a nil
`*Message_Response`) gives "response payload is nil"; every other exchange kind,
none set included, gives "unexpected message type". -/
theorem invoke_resolves_response {Args Reply : Type} (codec : Codec Args Reply)
    (cf : ConnectFn) (ctx : Context) (callID method : String) (args : Args)
    (sends : List (Option String)) (uc : UniClientConn) (w : World) (req : Message)
    (rb b : Bytes) (hmu : uc.connMu = false)
    (hreq : codec.newRequest callID method args = .ok req) (hmar : codec.marshal req = .ok rb)
    (hrecv : (invokeLoop cf ctx rb sends { uc with connMu := true } (w.emit .lock)).1 =
      .returned (.ok b)) :
    (∀ cause, codec.unmarshalMessage b = .error cause →
      (Invoke codec cf ctx callID method args sends uc w).1 =
        .returned ⟨some (.decoding cause), none⟩) ∧
    (∀ id p, codec.unmarshalMessage b = .ok ⟨.response (some ⟨id, some p⟩)⟩ →
      (Invoke codec cf ctx callID method args sends uc w).1 =
        .returned (match codec.unmarshalReply p with
          | .ok v => ⟨none, some v⟩
          | .error cause => ⟨some (.decoding cause), none⟩)) ∧
    (∀ id, codec.unmarshalMessage b = .ok ⟨.response (some ⟨id, none⟩)⟩ →
      (Invoke codec cf ctx callID method args sends uc w).1 =
        .returned ⟨some (.new "response payload is nil"), none⟩) ∧
    (codec.unmarshalMessage b = .ok ⟨.response none⟩ →
      (Invoke codec cf ctx callID method args sends uc w).1 =
        .returned ⟨some (.new "response payload is nil"), none⟩) ∧
    (∀ m, codec.unmarshalMessage b = .ok m → (∀ r, m.exchange ≠ .response r) →
      (Invoke codec cf ctx callID method args sends uc w).1 =
        .returned ⟨some (.new "unexpected message type"), none⟩) := by
  have hInv : (Invoke codec cf ctx callID method args sends uc w).1 =
      .returned (resolve codec b) := by
    rw [invoke_status _ _ _ _ _ _ _ _ _ hmu, invokeBody_status _ _ _ _ _ _ _ _ _ req rb hreq hmar,
      hrecv]
  rw [hInv]
  refine ⟨?_, ?_, ?_, ?_, ?_⟩
  · intro cause h
    simp [resolve, h]
  · intro id p h
    simp only [resolve, h]
    cases codec.unmarshalReply p <;> rfl
  · intro id h
    simp [resolve, h]
  · intro h
    simp [resolve, h]
  · intro m h hne
    simp only [resolve, h]
    rcases hm : m.exchange with _ | r | r
    · rfl
    · rfl
    · exact absurd hm (hne r)

/-- C5 at a concrete input: one send, one receive of a Response with payload. -/
theorem invoke_resolves_response_witness :
    (Invoke demoCodec tlsConnectFn ⟨none, .canceled, none⟩ "id" "m" 5 [none] ⟨false, some 1⟩
      (World.init [] [.ok [1, 9]])).1 = .returned ⟨none, some 9⟩ :=
  (invoke_resolves_response demoCodec tlsConnectFn ⟨none, .canceled, none⟩ "id" "m" 5 [none]
    ⟨false, some 1⟩ (World.init [] [.ok [1, 9]]) ⟨.request ⟨"id", "m", [5]⟩⟩ [7, 7] [1, 9]
    rfl rfl rfl rfl).2.1 "id" [9] rfl

/-- The retry loop never takes an observation back, and it returns an error only
after an observation that found the context done. -/
theorem retryLoop_seen (ctx : Context) : ∀ (dials : List (Except String Conn)) (d : Int)
    (w : World),
    w.obs ≤ (retryLoop ctx dials d w).2.obs ∧
    (∀ c e, (retryLoop ctx dials d w).1 = some (c, some e) →
      ∃ i, w.obs ≤ i ∧ i < (retryLoop ctx dials d w).2.obs ∧ ctx.doneAt i = true) := by
  intro dials
  induction dials with
  | nil =>
    intro d w
    exact ⟨Nat.le_refl _, fun c e h => by cases h⟩
  | cons outcome rest ih =>
    intro d w
    cases outcome with
    | ok h => exact ⟨Nat.le_refl _, fun c e h => by cases h⟩
    | error cause =>
      simp only [retryLoop, connect]
      split
      · rename_i hdone
        refine ⟨by simp, fun c e _ => ⟨w.obs, Nat.le_refl _, by simp, ?_⟩⟩
        simpa using hdone
      · obtain ⟨hle, hex⟩ := ih (max (mulDuration d 2) minute)
          (({ w.emit .dialContext with dials := rest }.emit
            (.warnf "error connecting %v, waiting then retrying" (.dialing cause))).emit
              (.after d)).observe
        refine ⟨Nat.le_trans (Nat.le_succ w.obs) hle, fun c e h => ?_⟩
        obtain ⟨i, h1, h2, h3⟩ := hex c e h
        exact ⟨i, Nat.le_trans (Nat.le_succ w.obs) h1, h2, h3⟩

/-- The failure branch never takes an observation back, and when `Invoke` ends
there with an error, an observation made in the branch found the context done. -/
theorem onTransportError_seen (ctx : Context) (what : String) (err : Error)
    (uc : UniClientConn) (w : World) :
    (∀ st uc' w', onTransportError tlsConnectFn ctx what err uc w = .inl (st, uc', w') →
      w.obs ≤ w'.obs ∧
      (∀ e, st = .returned (.error e) →
        ∃ i, w.obs ≤ i ∧ i < w'.obs ∧ ctx.doneAt i = true)) ∧
    (∀ uc' w', onTransportError tlsConnectFn ctx what err uc w = .inr (uc', w') →
      w.obs ≤ w'.obs) := by
  unfold onTransportError
  split
  · rename_i hdone
    refine ⟨fun st uc' w' h => ?_, fun uc' w' h => by cases h⟩
    simp only [Sum.inl.injEq, Prod.mk.injEq] at h
    obtain ⟨_, _, rfl⟩ := h
    exact ⟨Nat.le_succ w.obs, fun e _ => ⟨w.obs, Nat.le_refl _, Nat.lt_succ_self w.obs, hdone⟩⟩
  · obtain ⟨hle, hex⟩ := retryLoop_seen ctx (w.observe.emit
        (.warnf ("received error %v " ++ what ++ " message, reconnecting") err)).dials second
        (w.observe.emit
        (.warnf ("received error %v " ++ what ++ " message, reconnecting") err))
    simp only [tlsConnectFn, retryConnectWithBackoff]
    rcases hrl : retryLoop ctx (w.observe.emit
        (.warnf ("received error %v " ++ what ++ " message, reconnecting") err)).dials second
        (w.observe.emit
        (.warnf ("received error %v " ++ what ++ " message, reconnecting") err))
      with ⟨st, w1⟩
    rw [hrl] at hle hex
    simp only [emit_obs, observe_obs] at hle hex
    rcases st with _ | ⟨c, _ | e2⟩
    · refine ⟨fun st uc' w' h => ?_, fun uc' w' h => by cases h⟩
      simp only [Sum.inl.injEq, Prod.mk.injEq] at h
      obtain ⟨rfl, _, rfl⟩ := h
      exact ⟨by omega, fun e he => by cases he⟩
    · refine ⟨fun st uc' w' h => (by cases h), fun uc' w' h => ?_⟩
      simp only [Sum.inr.injEq, Prod.mk.injEq] at h
      obtain ⟨_, rfl⟩ := h
      simp only [emit_obs]
      omega
    · refine ⟨fun st uc' w' h => ?_, fun uc' w' h => by cases h⟩
      simp only [Sum.inl.injEq, Prod.mk.injEq] at h
      obtain ⟨_, _, rfl⟩ := h
      refine ⟨by omega, fun e _ => ?_⟩
      obtain ⟨i, h1, h2, h3⟩ := hex c e2 rfl
      exact ⟨i, by omega, h2, h3⟩

@[simp] theorem sendCalls_obs (ctx : Context) (mu : Bool) (h : Conn) (rb : Bytes) (w : World) :
    (sendCalls ctx mu h rb w).obs = w.obs := by
  unfold sendCalls
  cases ctx.deadline <;> rfl

@[simp] theorem recvCalls_obs (ctx : Context) (mu : Bool) (h : Conn) (w : World) :
    (recvCalls ctx mu h w).obs = w.obs := by
  unfold recvCalls
  cases ctx.deadline <;> rfl

/-- The loop of `Invoke` ends with an error only after an observation, made
during the loop, that found the context done. -/
theorem invokeLoop_seen (ctx : Context) (rb : Bytes) :
    ∀ (sends : List (Option String)) (uc : UniClientConn) (w : World),
      w.obs ≤ (invokeLoop tlsConnectFn ctx rb sends uc w).2.2.obs ∧
      (∀ e, (invokeLoop tlsConnectFn ctx rb sends uc w).1 = .returned (.error e) →
        ∃ i, w.obs ≤ i ∧ i < (invokeLoop tlsConnectFn ctx rb sends uc w).2.2.obs ∧
          ctx.doneAt i = true) := by
  intro sends
  induction sends with
  | nil =>
    rintro ⟨mu, _ | h⟩ w
    · rw [invokeLoop_nil_conn]; exact ⟨by simp, fun e he => by cases he⟩
    · rw [invokeLoop_nil]; exact ⟨by simp, fun e he => by cases he⟩
  | cons s sends ih =>
    rintro ⟨mu, _ | h⟩ w
    · rw [invokeLoop_nil_conn]; exact ⟨by simp, fun e he => by cases he⟩
    · cases s with
      | some cause =>
        rw [invokeLoop_write_failed]
        obtain ⟨hl, hr⟩ := onTransportError_seen ctx "writing" (.write cause) ⟨mu, some h⟩
          (sendCalls ctx mu h rb w)
        rcases hote : onTransportError tlsConnectFn ctx "writing" (.write cause)
          ⟨mu, some h⟩ (sendCalls ctx mu h rb w) with ⟨st, uc', w'⟩ | ⟨uc', w'⟩
        · obtain ⟨h1, h2⟩ := hl st uc' w' hote
          simp only [sendCalls_obs] at h1 h2
          exact ⟨h1, h2⟩
        · have h1 := hr uc' w' hote
          simp only [sendCalls_obs] at h1
          obtain ⟨g1, g2⟩ := ih uc' w'
          dsimp only
          refine ⟨by omega, fun e he => ?_⟩
          obtain ⟨i, i1, i2, i3⟩ := g2 e he
          exact ⟨i, by omega, i2, i3⟩
      | none =>
        rw [invokeLoop_written]
        simp only [recvCalls_recvs, sendCalls_recvs]
        rcases hrec : w.recvs with _ | ⟨r, recvs⟩
        · exact ⟨by simp, fun e he => by cases he⟩
        · cases r with
          | ok b => exact ⟨by simp, fun e he => by cases he⟩
          | error cause =>
            simp only
            obtain ⟨hl, hr⟩ := onTransportError_seen ctx "reading" (.read cause)
              ⟨mu, some h⟩
              { recvCalls ctx mu h (sendCalls ctx mu h rb w) with recvs := recvs }
            have hobs : ({ recvCalls ctx mu h (sendCalls ctx mu h rb w) with
                recvs := recvs } : World).obs = w.obs := by simp
            rw [hobs] at hl hr
            rcases hote : onTransportError tlsConnectFn ctx "reading" (.read cause)
              ⟨mu, some h⟩
              { recvCalls ctx mu h (sendCalls ctx mu h rb w) with recvs := recvs }
              with ⟨st, uc', w'⟩ | ⟨uc', w'⟩
            · exact hl st uc' w' hote
            · have h1 := hr uc' w' hote
              obtain ⟨g1, g2⟩ := ih uc' w'
              dsimp only
              refine ⟨by omega, fun e he => ?_⟩
              obtain ⟨i, i1, i2, i3⟩ := g2 e he
              exact ⟨i, by omega, i2, i3⟩

/-- The observations counted at the end of `Invoke` are those counted at the end
of its loop. -/
theorem invoke_obs {Args Reply : Type} (codec : Codec Args Reply) (cf : ConnectFn)
    (ctx : Context) (callID method : String) (args : Args) (sends : List (Option String))
    (uc : UniClientConn) (w : World) (req : Message) (rb : Bytes)
    (hmu : uc.connMu = false)
    (hreq : codec.newRequest callID method args = .ok req) (hmar : codec.marshal req = .ok rb) :
    (Invoke codec cf ctx callID method args sends uc w).2.2.obs =
      (invokeLoop cf ctx rb sends { uc with connMu := true } (w.emit .lock)).2.2.obs := by
  unfold Invoke invokeBody
  simp only [hmu, Bool.false_eq_true, if_false, hreq, hmar]
  rcases invokeLoop cf ctx rb sends { uc with connMu := true } (w.emit .lock)
    with ⟨st, uc', w'⟩
  rcases st with (b | e) | _ | _ <;> rfl

/-- C6: with the reconnect function of `NewTLSUniClientConn`, an error that
`Invoke` returns is the context's error, an encoding error, a decoding error,
"response payload is nil" or "unexpected message type"; it is never the error of
a send, of a receive or of a dial attempt; and while the context stays live, that
is when every observation of the context made during the call finds it live,
`Invoke` returns only before its first send (encoding error) or with the resolution
of bytes it received, so no send or receive failure ends it. -/
theorem invoke_error_classes {Args Reply : Type} (codec : Codec Args Reply) (ctx : Context)
    (callID method : String) (args : Args) (sends : List (Option String))
    (uc : UniClientConn) (w : World) (r : InvokeResult Reply)
    (hret : (Invoke codec tlsConnectFn ctx callID method args sends uc w).1 = .returned r) :
    (∀ e, r.err = some e →
      (e = .context ctx.err ∨ (∃ c, e = .encoding c) ∨ (∃ c, e = .decoding c) ∨
        e = .new "response payload is nil" ∨ e = .new "unexpected message type") ∧
      (∀ c, e ≠ .write c) ∧ (∀ c, e ≠ .read c) ∧ (∀ c, e ≠ .dialing c)) ∧
    ((∀ i, w.obs ≤ i →
        i < (Invoke codec tlsConnectFn ctx callID method args sends uc w).2.2.obs →
        ctx.doneAt i = false) →
      (∃ c, r = ⟨some (.encoding c), none⟩) ∨
        ∃ b, Except.ok b ∈ w.recvs ∧ r = resolve codec b) := by
  have key : ((∃ c, r = ⟨some (.encoding c), none⟩) ∨
      (r = ⟨some (.context ctx.err), none⟩ ∧
        ∃ i, w.obs ≤ i ∧
          i < (Invoke codec tlsConnectFn ctx callID method args sends uc w).2.2.obs ∧
          ctx.doneAt i = true) ∨
      ∃ b, Except.ok b ∈ w.recvs ∧ r = resolve codec b) := by
    cases hmu : uc.connMu with
    | true =>
      rw [invoke_locked _ _ _ _ _ _ _ _ _ hmu] at hret
      cases hret
    | false =>
      rw [invoke_status _ _ _ _ _ _ _ _ _ hmu] at hret
      rcases hreq : codec.newRequest callID method args with c | req
      · simp only [invokeBody, hreq] at hret
        left; exact ⟨c, (Status.returned.inj hret).symm⟩
      · rcases hmar : codec.marshal req with c | rb
        · simp only [invokeBody, hreq, hmar] at hret
          left; exact ⟨c, (Status.returned.inj hret).symm⟩
        · rw [invokeBody_status _ _ _ _ _ _ _ _ _ req rb hreq hmar] at hret
          rw [invoke_obs codec tlsConnectFn ctx callID method args sends uc w req rb hmu
            hreq hmar]
          have hseen := (invokeLoop_seen ctx rb sends { uc with connMu := true }
            (w.emit .lock)).2
          rcases invokeLoop_tls_status ctx rb sends { uc with connMu := true } (w.emit .lock)
            with h | h | ⟨h, _⟩ | ⟨b, h, hb⟩
          · rw [h] at hret; cases hret
          · rw [h] at hret; cases hret
          · have hs := hseen _ h
            rw [h] at hret
            right; left; exact ⟨(Status.returned.inj hret).symm, hs⟩
          · rw [h] at hret
            right; right; exact ⟨b, hb, (Status.returned.inj hret).symm⟩
  refine ⟨fun e herr => ?_, fun hl => ?_⟩
  · have cls : e = .context ctx.err ∨ (∃ c, e = .encoding c) ∨ (∃ c, e = .decoding c) ∨
        e = .new "response payload is nil" ∨ e = .new "unexpected message type" := by
      rcases key with ⟨c, rfl⟩ | ⟨rfl, _⟩ | ⟨b, _, rfl⟩
      · right; left; exact ⟨c, (Option.some.inj herr).symm⟩
      · left; exact (Option.some.inj herr).symm
      · rcases resolve_err codec b e herr with h | h | h
        · right; right; left; exact h
        · right; right; right; left; exact h
        · right; right; right; right; exact h
    refine ⟨cls, ?_, ?_, ?_⟩
    · intro c hc
      subst hc
      rcases cls with h | ⟨_, h⟩ | ⟨_, h⟩ | h | h <;> cases h
    · intro c hc
      subst hc
      rcases cls with h | ⟨_, h⟩ | ⟨_, h⟩ | h | h <;> cases h
    · intro c hc
      subst hc
      rcases cls with h | ⟨_, h⟩ | ⟨_, h⟩ | h | h <;> cases h
  · rcases key with h | ⟨_, i, h1, h2, h3⟩ | h
    · left; exact h
    · rw [hl i h1 h2] at h3
      cases h3
    · right; exact h

/-- C6 at concrete inputs.  First run: the send fails, the dial fails, and the
context is done at the wait: `Invoke` returns the context's error, which is no
send error.  Second run, under a context that is cancelled only later: the send
fails, the reconnect succeeds, and the resend is answered by a Request envelope:
`Invoke` returns the resolution of the received bytes. -/
theorem invoke_error_classes_witness :
    ((Invoke demoCodec tlsConnectFn ⟨some 10, .deadlineExceeded, some 1⟩ "id" "m" 5
      [some "broken pipe"] ⟨false, some 1⟩ (World.init [.error "refused"] [])).1 =
        .returned ⟨some (.context .deadlineExceeded), none⟩ ∧
      ∀ c, Error.context .deadlineExceeded ≠ .write c) ∧
    ((Invoke demoCodec tlsConnectFn ⟨none, .canceled, some 5⟩ "id" "m" 5
      [some "broken pipe", none] ⟨false, some 1⟩ (World.init [.ok 7] [.ok [3]])).1 =
        .returned ⟨some (.new "unexpected message type"), none⟩ ∧
      ((∃ c, (⟨some (.new "unexpected message type"), none⟩ : InvokeResult Nat) =
          ⟨some (.encoding c), none⟩) ∨
        ∃ b, Except.ok b ∈ (World.init [.ok 7] [.ok [3]]).recvs ∧
          (⟨some (.new "unexpected message type"), none⟩ : InvokeResult Nat) =
            resolve demoCodec b)) :=
  ⟨⟨by decide,
    ((invoke_error_classes demoCodec ⟨some 10, .deadlineExceeded, some 1⟩ "id" "m" 5
      [some "broken pipe"] ⟨false, some 1⟩ (World.init [.error "refused"] [])
      ⟨some (.context .deadlineExceeded), none⟩ (by decide)).1
        (.context .deadlineExceeded) rfl).2.1⟩,
   ⟨by decide,
    (invoke_error_classes demoCodec ⟨none, .canceled, some 5⟩ "id" "m" 5
      [some "broken pipe", none] ⟨false, some 1⟩ (World.init [.ok 7] [.ok [3]])
      ⟨some (.new "unexpected message type"), none⟩ (by decide)).2 (by decide)⟩⟩

/-! ## Deadlines -/

theorem transportCalls_append (s t : List Event) :
    transportCalls (s ++ t) = transportCalls s ++ transportCalls t := by
  simp [transportCalls]

theorem Frame.transportCalls_eq {mu : Bool} {w w' : World} (h : Frame mu w w') :
    transportCalls w'.trace = transportCalls w.trace := by
  obtain ⟨_, t, ht, hq⟩ := h
  have : transportCalls t = [] := by
    unfold transportCalls
    rw [List.filter_eq_nil_iff]
    intro e he
    simp [(hq e he).1]
  rw [ht, transportCalls_append, this, List.append_nil]

theorem transportCalls_sendCalls (ctx : Context) (mu : Bool) (h : Conn) (rb : Bytes) (w : World) :
    transportCalls (sendCalls ctx mu h rb w).trace =
      transportCalls w.trace ++ TransportOp.calls ctx.deadline (.send h rb) := by
  unfold sendCalls TransportOp.calls
  cases ctx.deadline <;>
    simp [transportCalls, World.emit, Event.isTransport, List.filter_cons]

theorem transportCalls_recvCalls (ctx : Context) (mu : Bool) (h : Conn) (w : World) :
    transportCalls (recvCalls ctx mu h w).trace =
      transportCalls w.trace ++ TransportOp.calls ctx.deadline (.recv h) := by
  unfold recvCalls TransportOp.calls
  cases ctx.deadline <;>
    simp [transportCalls, World.emit, Event.isTransport, List.filter_cons]

/-- The transport calls of the loop of `Invoke` are a sequence of uses, each
with its deadline call when the context has a deadline. -/
theorem invokeLoop_tls_transport (ctx : Context) (rb : Bytes) :
    ∀ (sends : List (Option String)) (uc : UniClientConn) (w : World),
      ∃ ops : List TransportOp,
        transportCalls (invokeLoop tlsConnectFn ctx rb sends uc w).2.2.trace =
          transportCalls w.trace ++ ops.flatMap (TransportOp.calls ctx.deadline) := by
  intro sends
  induction sends with
  | nil =>
    rintro ⟨mu, _ | h⟩ w
    · exact ⟨[], by simp [invokeLoop_nil_conn, transportCalls, Event.isTransport]⟩
    · exact ⟨[.send h rb], by simp [invokeLoop_nil, transportCalls_sendCalls]⟩
  | cons s sends ih =>
    rintro ⟨mu, _ | h⟩ w
    · exact ⟨[], by simp [invokeLoop_nil_conn, transportCalls, Event.isTransport]⟩
    · cases s with
      | some cause =>
        rw [invokeLoop_write_failed]
        rcases onTransportError_tls ctx "writing" (.write cause) ⟨mu, some h⟩
            (sendCalls ctx mu h rb w) with ⟨w', he, hf⟩ | ⟨w', he, hf, _⟩ | ⟨h', w', he, hf⟩
        · exact ⟨[.send h rb], by
            rw [he]; simp [hf.transportCalls_eq, transportCalls_sendCalls]⟩
        · exact ⟨[.send h rb], by
            rw [he]; simp [hf.transportCalls_eq, transportCalls_sendCalls]⟩
        · obtain ⟨ops, hops⟩ := ih ⟨mu, some h'⟩ w'
          refine ⟨.send h rb :: ops, ?_⟩
          rw [he]
          simp only [hops, hf.transportCalls_eq, transportCalls_sendCalls, List.flatMap_cons,
            List.append_assoc]
      | none =>
        rw [invokeLoop_written]
        simp only [recvCalls_recvs, sendCalls_recvs]
        have hcalls : transportCalls (recvCalls ctx mu h (sendCalls ctx mu h rb w)).trace =
            transportCalls w.trace ++
              [TransportOp.send h rb, .recv h].flatMap (TransportOp.calls ctx.deadline) := by
          simp [transportCalls_recvCalls, transportCalls_sendCalls]
        rcases hrec : w.recvs with _ | ⟨r, recvs⟩
        · exact ⟨_, hcalls⟩
        · cases r with
          | ok b => exact ⟨_, hcalls⟩
          | error cause =>
            simp only
            rcases onTransportError_tls ctx "reading" (.read cause) ⟨mu, some h⟩
                { recvCalls ctx mu h (sendCalls ctx mu h rb w) with recvs := recvs }
              with ⟨w', he, hf⟩ | ⟨w', he, hf, _⟩ | ⟨h', w', he, hf⟩
            · exact ⟨_, by rw [he]; simp only [hf.transportCalls_eq]; exact hcalls⟩
            · exact ⟨_, by rw [he]; simp only [hf.transportCalls_eq]; exact hcalls⟩
            · obtain ⟨ops, hops⟩ := ih ⟨mu, some h'⟩ w'
              refine ⟨.send h rb :: .recv h :: ops, ?_⟩
              rw [he]
              simp only [hops, hf.transportCalls_eq]
              rw [hcalls]
              simp [List.flatMap_cons, List.append_assoc]


theorem invokeBody_tls_transport {Args Reply : Type} (codec : Codec Args Reply) (ctx : Context)
    (callID method : String) (args : Args) (sends : List (Option String))
    (uc : UniClientConn) (w : World) :
    ∃ ops : List TransportOp,
      transportCalls (invokeBody codec tlsConnectFn ctx callID method args sends uc w).2.2.trace =
        transportCalls w.trace ++ ops.flatMap (TransportOp.calls ctx.deadline) := by
  unfold invokeBody
  split
  · exact ⟨[], by simp⟩
  · split
    · exact ⟨[], by simp⟩
    · rename_i rb _
      obtain ⟨ops, hops⟩ := invokeLoop_tls_transport ctx rb sends uc w
      refine ⟨ops, ?_⟩
      split <;> rename_i hl <;> rw [hl] at hops <;> exact hops

/-- The transport calls of a whole `Invoke`. -/
theorem invoke_tls_transport {Args Reply : Type} (codec : Codec Args Reply) (ctx : Context)
    (callID method : String) (args : Args) (sends : List (Option String))
    (uc : UniClientConn) (w : World) :
    ∃ ops : List TransportOp,
      transportCalls (Invoke codec tlsConnectFn ctx callID method args sends uc w).2.2.trace =
        transportCalls w.trace ++ ops.flatMap (TransportOp.calls ctx.deadline) := by
  unfold Invoke
  split
  · exact ⟨[], by simp⟩
  · obtain ⟨ops, hops⟩ := invokeBody_tls_transport codec ctx callID method args sends
      { uc with connMu := true } (w.emit .lock)
    refine ⟨ops, ?_⟩
    rcases hb : invokeBody codec tlsConnectFn ctx callID method args sends
      { uc with connMu := true } (w.emit .lock) with ⟨st, uc', w'⟩
    rw [hb] at hops
    have hlock : transportCalls (w.emit .lock).trace = transportCalls w.trace := by
      simp [transportCalls, Event.isTransport]
    rw [hlock] at hops
    cases st
    · simpa [transportCalls, Event.isTransport] using hops
    · simpa [transportCalls, Event.isTransport] using hops
    · exact hops

/-- In a sequence of uses under a deadline `d`, the call just before a send is
the write-deadline call on the same handle. -/
theorem send_after_deadline (d : Time) : ∀ (ops : List TransportOp) (pre post : List Event)
    (h : Conn) (p : Bytes),
    ops.flatMap (TransportOp.calls (some d)) = pre ++ .writeMessage h p :: post →
      ∃ pre', pre = pre' ++ [.setWriteDeadline h d] := by
  intro ops
  induction ops with
  | nil =>
    intro pre post h p heq
    simp at heq
  | cons op ops ih =>
    intro pre post h p heq
    rcases pre with _ | ⟨x, _ | ⟨y, pre2⟩⟩
    · cases op <;> simp [TransportOp.calls] at heq
    · cases op with
      | send h' p' =>
        simp [TransportOp.calls] at heq
        obtain ⟨rfl, ⟨rfl, _⟩, _⟩ := heq
        exact ⟨[], rfl⟩
      | recv h' => simp [TransportOp.calls] at heq
    · have hrest : ops.flatMap (TransportOp.calls (some d)) =
          pre2 ++ .writeMessage h p :: post := by
        cases op <;> simp [TransportOp.calls] at heq <;> exact heq.2.2
      obtain ⟨pre', rfl⟩ := ih pre2 post h p hrest
      exact ⟨x :: y :: pre', rfl⟩

/-- In a sequence of uses under a deadline `d`, the call just before a receive
is the read-deadline call on the same handle. -/
theorem recv_after_deadline (d : Time) : ∀ (ops : List TransportOp) (pre post : List Event)
    (h : Conn),
    ops.flatMap (TransportOp.calls (some d)) = pre ++ .readMessage h :: post →
      ∃ pre', pre = pre' ++ [.setReadDeadline h d] := by
  intro ops
  induction ops with
  | nil =>
    intro pre post h heq
    simp at heq
  | cons op ops ih =>
    intro pre post h heq
    rcases pre with _ | ⟨x, _ | ⟨y, pre2⟩⟩
    · cases op <;> simp [TransportOp.calls] at heq
    · cases op with
      | send h' p' => simp [TransportOp.calls] at heq
      | recv h' =>
        simp [TransportOp.calls] at heq
        obtain ⟨rfl, rfl, _⟩ := heq
        exact ⟨[], rfl⟩
    · have hrest : ops.flatMap (TransportOp.calls (some d)) =
          pre2 ++ .readMessage h :: post := by
        cases op <;> simp [TransportOp.calls] at heq <;> exact heq.2.2
      obtain ⟨pre', rfl⟩ := ih pre2 post h hrest
      exact ⟨x :: y :: pre', rfl⟩

/-- Uses without a deadline contain no deadline call. -/
theorem no_deadline_calls (ops : List TransportOp) :
    ∀ e ∈ ops.flatMap (TransportOp.calls none), e.isSetDeadline = false := by
  intro e he
  rw [List.mem_flatMap] at he
  obtain ⟨op, _, hop⟩ := he
  cases op <;> simp [TransportOp.calls] at hop <;> subst hop <;> rfl

/-- C8: in `Invoke`, on a run that starts with an empty trace, if the context has
a deadline `d` then, among the transport calls, every send on a handle comes right
after the call that sets the write deadline of that handle to `d`, and every
receive right after the call that sets its read deadline to `d`, on the first
handle and on every handle a reconnect installs; if the context has no deadline,
`Invoke` makes no set-deadline call at all. -/
theorem invoke_deadline_discipline {Args Reply : Type} (codec : Codec Args Reply)
    (ctx : Context) (callID method : String) (args : Args) (sends : List (Option String))
    (uc : UniClientConn) (obs : Nat) (dials : List (Except String Conn))
    (recvs : List (Except String Bytes)) :
    (∀ d, ctx.deadline = some d →
      (∀ pre post h p,
        transportCalls (Invoke codec tlsConnectFn ctx callID method args sends uc
          ⟨obs, dials, recvs, []⟩).2.2.trace = pre ++ .writeMessage h p :: post →
        ∃ pre', pre = pre' ++ [.setWriteDeadline h d]) ∧
      (∀ pre post h,
        transportCalls (Invoke codec tlsConnectFn ctx callID method args sends uc
          ⟨obs, dials, recvs, []⟩).2.2.trace = pre ++ .readMessage h :: post →
        ∃ pre', pre = pre' ++ [.setReadDeadline h d])) ∧
    (ctx.deadline = none →
      ∀ e ∈ (Invoke codec tlsConnectFn ctx callID method args sends uc
        ⟨obs, dials, recvs, []⟩).2.2.trace, e.isSetDeadline = false) := by
  obtain ⟨ops, hops⟩ := invoke_tls_transport codec ctx callID method args sends uc
    ⟨obs, dials, recvs, []⟩
  simp only [transportCalls, List.filter_nil, List.nil_append] at hops
  refine ⟨?_, ?_⟩
  · intro d hd
    rw [hd] at hops
    refine ⟨?_, ?_⟩
    · intro pre post h p heq
      exact send_after_deadline d ops pre post h p (by rw [← hops]; exact heq)
    · intro pre post h heq
      exact recv_after_deadline d ops pre post h (by rw [← hops]; exact heq)
  · intro hd e he
    rw [hd] at hops
    by_contra hset
    have hset : e.isSetDeadline = true := by simpa using hset
    have htr : e.isTransport = true := by
      cases e <;> simp_all [Event.isSetDeadline, Event.isTransport]
    have hmem : e ∈ ops.flatMap (TransportOp.calls none) := by
      rw [← hops]
      exact List.mem_filter.mpr ⟨he, htr⟩
    rw [no_deadline_calls ops e hmem] at hset
    cases hset

/-- C8 at a concrete input: a send fails, the reconnect installs handle 7, and
the resend on handle 7 comes right after its write deadline is set. -/
theorem invoke_deadline_discipline_witness :
    ∃ pre', [Event.setWriteDeadline 1 50, .writeMessage 1 [7, 7], .setWriteDeadline 7 50] =
      pre' ++ [.setWriteDeadline 7 50] :=
  ((invoke_deadline_discipline demoCodec ⟨some 50, .canceled, none⟩ "id" "m" 5
    [some "broken pipe", none] ⟨false, some 1⟩ 0 [.ok 7] [.ok [1, 9]]).1 50 rfl).1
      [.setWriteDeadline 1 50, .writeMessage 1 [7, 7], .setWriteDeadline 7 50]
      [.setReadDeadline 7 50, .readMessage 7] 7 [7, 7] (by decide)

/-! ## Presence of the stored handle -/

/-- The failure branch with any reconnect function that hands over a present
handle whenever it reports no error: the branch does not panic, leaves the client
as it was when `Invoke` ends there, and stores a present handle when it goes on. -/
theorem onTransportError_presence (cf : ConnectFn)
    (hpres : ∀ ctx w c w', cf ctx w = (some (c, none), w') → c ≠ none)
    (ctx : Context) (what : String) (err : Error) (uc : UniClientConn) (w : World) :
    (∃ st w', onTransportError cf ctx what err uc w = .inl (st, uc, w') ∧ st ≠ .panicked) ∨
    (∃ h' w', onTransportError cf ctx what err uc w = .inr (⟨uc.connMu, some h'⟩, w')) := by
  unfold onTransportError
  split
  · left; exact ⟨_, _, rfl, by simp⟩
  · rcases hcf : cf ctx (w.observe.emit
        (.warnf ("received error %v " ++ what ++ " message, reconnecting") err)) with ⟨st, w1⟩
    simp only [hcf]
    rcases st with _ | ⟨c, _ | e⟩
    · left; exact ⟨_, _, rfl, by simp⟩
    · rcases c with _ | h'
      · exact absurd rfl (hpres _ _ _ _ hcf)
      · right; exact ⟨h', _, rfl⟩
    · left; exact ⟨_, _, rfl, by simp⟩

/-- The loop of `Invoke` keeps a present handle present and does not panic. -/
theorem invokeLoop_presence (cf : ConnectFn)
    (hpres : ∀ ctx w c w', cf ctx w = (some (c, none), w') → c ≠ none)
    (ctx : Context) (rb : Bytes) :
    ∀ (sends : List (Option String)) (mu : Bool) (h : Conn) (w : World),
      (invokeLoop cf ctx rb sends ⟨mu, some h⟩ w).1 ≠ .panicked ∧
      ∃ h', (invokeLoop cf ctx rb sends ⟨mu, some h⟩ w).2.1 = ⟨mu, some h'⟩ := by
  intro sends
  induction sends with
  | nil =>
    intro mu h w
    exact ⟨by simp [invokeLoop_nil], h, rfl⟩
  | cons s sends ih =>
    intro mu h w
    cases s with
    | some cause =>
      rw [invokeLoop_write_failed]
      rcases onTransportError_presence cf hpres ctx "writing" (.write cause) ⟨mu, some h⟩
          (sendCalls ctx mu h rb w) with ⟨st, w', he, hst⟩ | ⟨h', w', he⟩
      · rw [he]; exact ⟨hst, h, rfl⟩
      · rw [he]; exact ih mu h' w'
    | none =>
      rw [invokeLoop_written]
      rcases (recvCalls ctx mu h (sendCalls ctx mu h rb w)).recvs with _ | ⟨r, recvs⟩
      · exact ⟨by simp, h, rfl⟩
      · cases r with
        | ok b => exact ⟨by simp, h, rfl⟩
        | error cause =>
          simp only
          rcases onTransportError_presence cf hpres ctx "reading" (.read cause)
              ⟨mu, some h⟩ { recvCalls ctx mu h (sendCalls ctx mu h rb w) with recvs := recvs }
            with ⟨st, w', he, hst⟩ | ⟨h', w', he⟩
          · rw [he]; exact ⟨hst, h, rfl⟩
          · rw [he]; exact ih mu h' w'

/-- The body of `Invoke` keeps a present handle present and does not panic. -/
theorem invokeBody_presence {Args Reply : Type} (codec : Codec Args Reply) (cf : ConnectFn)
    (hpres : ∀ ctx w c w', cf ctx w = (some (c, none), w') → c ≠ none)
    (ctx : Context) (callID method : String)
    (args : Args) (sends : List (Option String)) (mu : Bool) (h : Conn) (w : World) :
    (invokeBody codec cf ctx callID method args sends ⟨mu, some h⟩ w).1 ≠ .panicked ∧
    ∃ h', (invokeBody codec cf ctx callID method args sends ⟨mu, some h⟩ w).2.1 =
      ⟨mu, some h'⟩ := by
  unfold invokeBody
  split
  · exact ⟨by simp, h, rfl⟩
  · split
    · exact ⟨by simp, h, rfl⟩
    · rename_i rb _
      obtain ⟨hnp', h', hh'⟩ := invokeLoop_presence cf hpres ctx rb sends mu h w
      split <;> rename_i hl <;> rw [hl] at hnp' hh'
      · exact ⟨by simp, h', hh'⟩
      · exact ⟨by simp, h', hh'⟩
      · exact absurd rfl hnp'
      · exact ⟨by simp, h', hh'⟩

/-- A present handle at the start of `Invoke` is never found absent, and a
present handle is stored at its end, whatever the outcome. -/
theorem invoke_presence {Args Reply : Type} (codec : Codec Args Reply) (cf : ConnectFn)
    (hpres : ∀ ctx w c w', cf ctx w = (some (c, none), w') → c ≠ none)
    (ctx : Context) (callID method : String)
    (args : Args) (sends : List (Option String)) (uc : UniClientConn) (w : World)
    (hconn : uc.conn ≠ none) :
    (Invoke codec cf ctx callID method args sends uc w).1 ≠ .panicked ∧
    (Invoke codec cf ctx callID method args sends uc w).2.1.conn ≠ none := by
  obtain ⟨mu, _ | h⟩ := uc
  · exact absurd rfl hconn
  · unfold Invoke
    split
    · exact ⟨by simp, by simp⟩
    · obtain ⟨hnp', h', hh'⟩ := invokeBody_presence codec cf hpres ctx callID method args
        sends true h (w.emit .lock)
      rcases hb : invokeBody codec cf ctx callID method args sends ⟨true, some h⟩
        (w.emit .lock) with ⟨st, uc', w'⟩
      rw [hb] at hnp' hh'
      simp only at hh'
      subst hh'
      cases st
      · exact ⟨by simp, by simp⟩
      · exact absurd rfl hnp'
      · exact ⟨by simp, by simp⟩

/-- The reconnect function of `NewTLSUniClientConn` hands over a present handle
whenever it reports no error. -/
theorem tlsConnectFn_presence (ctx : Context) (w : World) (c : Option Conn) (w' : World)
    (h : tlsConnectFn ctx w = (some (c, none), w')) : c ≠ none := by
  have h1 : (retryLoop ctx w.dials second w).1 = some (c, none) := by
    have := congrArg Prod.fst h
    exact this
  rcases retryLoop_status ctx w.dials second w with h2 | ⟨c', h2⟩ | ⟨h2, _⟩ <;>
    rw [h2] at h1
  · cases h1
  · cases h1; simp
  · cases h1

/-- What `Dial` stores, with the reconnect function of `NewTLSUniClientConn`: a
present handle when it returns no error, an absent one when it returns an error. -/
theorem dial_stores (ctx : Context) (uc : UniClientConn) (w : World) :
    ((Dial tlsConnectFn ctx uc w).1 = .returned none →
      (Dial tlsConnectFn ctx uc w).2.1.conn ≠ none) ∧
    (∀ e, (Dial tlsConnectFn ctx uc w).1 = .returned (some e) →
      (Dial tlsConnectFn ctx uc w).2.1 = ⟨uc.connMu, none⟩) := by
  unfold Dial
  rcases hrl : tlsConnectFn ctx w with ⟨st, w1⟩
  have hst := retryLoop_status ctx w.dials second w
  have hfst : (retryLoop ctx w.dials second w).1 = st := congrArg Prod.fst hrl
  rw [hfst] at hst
  rcases hst with h | ⟨c, h⟩ | ⟨h, _⟩ <;> subst h
  · exact ⟨fun h => (by cases h), fun e h => (by cases h)⟩
  · exact ⟨fun _ => (by simp), fun e h => (by cases h)⟩
  · exact ⟨fun h => (by cases h), fun e _ => rfl⟩

/-- On a client whose stored handle is absent, `Invoke` panics as soon as the
request is encoded: the first round of its loop calls a method on the nil handle. -/
theorem invoke_absent_handle {Args Reply : Type} (codec : Codec Args Reply) (cf : ConnectFn)
    (ctx : Context) (callID method : String) (args : Args) (sends : List (Option String))
    (w : World) (req : Message) (rb : Bytes)
    (hreq : codec.newRequest callID method args = .ok req) (hmar : codec.marshal req = .ok rb) :
    (Invoke codec cf ctx callID method args sends ⟨false, none⟩ w).1 = .panicked := by
  rw [invoke_status _ _ _ _ _ _ _ _ _ rfl, invokeBody_status _ _ _ _ _ _ _ _ _ req rb hreq hmar,
    invokeLoop_nil_conn]

/-- When the request does not encode, at `message.NewRequest` or at
`MarshalProtoMessage`, `Invoke` returns the encoding error between its `Lock` and
its `Unlock` and does nothing else: the client is as before and the trace gains
those two calls only, no read of `uc.conn` among them. -/
theorem invoke_encoding_failed {Args Reply : Type} (codec : Codec Args Reply) (cf : ConnectFn)
    (ctx : Context) (callID method : String) (args : Args) (sends : List (Option String))
    (uc : UniClientConn) (w : World) (cause : String) (hmu : uc.connMu = false)
    (henc : codec.newRequest callID method args = .error cause ∨
      ∃ req, codec.newRequest callID method args = .ok req ∧
        codec.marshal req = .error cause) :
    Invoke codec cf ctx callID method args sends uc w =
      (.returned ⟨some (.encoding cause), none⟩, uc, (w.emit .lock).emit .unlock) := by
  obtain ⟨mu, conn⟩ := uc
  simp only at hmu
  subst hmu
  rcases henc with h | ⟨req, h1, h2⟩
  · simp [Invoke, invokeBody, h]
  · simp [Invoke, invokeBody, h1, h2]

/-- C10, counterexample: `Dial` fails under a cancelled context and stores an absent
handle; a following `Invoke` whose arguments do not encode returns the encoding
error after `Lock` and `Unlock` only: it never reads the absent handle. -/
theorem invoke_after_failed_dial_returns :
    Dial tlsConnectFn ⟨none, .canceled, some 0⟩ NewTLSUniClientConn
        (World.init [.error "refused"] []) =
      (.returned (some (.context .canceled)), ⟨false, none⟩,
        ⟨1, [], [], [.dialContext,
          .warnf "error connecting %v, waiting then retrying" (.dialing "refused"),
          .after second, .warnf "ctx error %v reconnecting" (.context .canceled),
          .storeConn false none]⟩) ∧
    Invoke refusingCodec tlsConnectFn ⟨none, .canceled, none⟩ "id" "m" 5 [none]
        ⟨false, none⟩ (World.init [] []) =
      (.returned ⟨some (.encoding "cannot marshal args"), none⟩, ⟨false, none⟩,
        ⟨0, [], [], [.lock, .unlock]⟩) := by
  decide

/-- C10 (amended): if the stored handle is present when `Invoke` starts and the
reconnect function returns a present handle whenever it returns no error, `Invoke`
never calls a method on an absent handle and a present handle is stored when it
ends, whatever its outcome; `Dial` (bound to `retryConnectWithBackoff`) stores a
present handle when it returns no error and an absent one, over any previous
handle, when it returns an error; on a client left so, also the client that
`DialUniWithContext` returns together with an error, `Close` panics on the absent
handle, and so does every `Invoke` whose request encodes; an `Invoke` whose request
does not encode returns the encoding error after `Lock` and `Unlock` only, without
reading the handle. -/
theorem handle_presence {Args Reply : Type} (codec : Codec Args Reply) :
    (∀ (cf : ConnectFn) (ctx : Context) (callID method : String) (args : Args)
        (sends : List (Option String)) (uc : UniClientConn) (w : World),
      (∀ ctx w c w', cf ctx w = (some (c, none), w') → c ≠ none) →
      uc.conn ≠ none →
      (Invoke codec cf ctx callID method args sends uc w).1 ≠ .panicked ∧
      (Invoke codec cf ctx callID method args sends uc w).2.1.conn ≠ none) ∧
    (∀ (ctx : Context) (uc : UniClientConn) (w : World),
      ((Dial tlsConnectFn ctx uc w).1 = .returned none →
        (Dial tlsConnectFn ctx uc w).2.1.conn ≠ none) ∧
      (∀ e, (Dial tlsConnectFn ctx uc w).1 = .returned (some e) →
        (Dial tlsConnectFn ctx uc w).2.1.conn = none)) ∧
    (∀ (ctx : Context) (w : World) (u : UniClientConn) (e : Error),
      (DialUniWithContext (.ok ()) (.ok ()) (.ok ()) ctx w).1 = .returned (some u, some e) →
      u = ⟨false, none⟩) ∧
    (∀ (outcome : Option String) (w : World),
      (Close outcome ⟨false, none⟩ w).1 = .panicked) ∧
    (∀ (cf : ConnectFn) (ctx : Context) (callID method : String) (args : Args)
        (sends : List (Option String)) (w : World) (req : Message) (rb : Bytes),
      codec.newRequest callID method args = .ok req → codec.marshal req = .ok rb →
      (Invoke codec cf ctx callID method args sends ⟨false, none⟩ w).1 = .panicked) ∧
    (∀ (cf : ConnectFn) (ctx : Context) (callID method : String) (args : Args)
        (sends : List (Option String)) (uc : UniClientConn) (w : World) (cause : String),
      uc.connMu = false →
      (codec.newRequest callID method args = .error cause ∨
        ∃ req, codec.newRequest callID method args = .ok req ∧
          codec.marshal req = .error cause) →
      Invoke codec cf ctx callID method args sends uc w =
        (.returned ⟨some (.encoding cause), none⟩, uc, (w.emit .lock).emit .unlock)) := by
  refine ⟨?_, ?_, ?_, ?_, ?_, ?_⟩
  · intro cf ctx callID method args sends uc w hpres hconn
    exact invoke_presence codec cf hpres ctx callID method args sends uc w hconn
  · intro ctx uc w
    refine ⟨(dial_stores ctx uc w).1, fun e he => ?_⟩
    rw [(dial_stores ctx uc w).2 e he]
  · intro ctx w u e h
    simp only [DialUniWithContext] at h
    have hd := dial_stores ctx NewTLSUniClientConn w
    rcases hdial : Dial tlsConnectFn ctx NewTLSUniClientConn w with ⟨st, u', w'⟩
    rw [hdial] at h hd
    cases st with
    | returned err =>
      simp only [Status.returned.injEq, Prod.mk.injEq, Option.some.injEq] at h
      obtain ⟨rfl, rfl⟩ := h
      exact hd.2 e rfl
    | panicked => cases h
    | blocked => cases h
  · intro outcome w
    rfl
  · intro cf ctx callID method args sends w req rb hreq hmar
    exact invoke_absent_handle codec cf ctx callID method args sends w req rb hreq hmar
  · intro cf ctx callID method args sends uc w cause hmu henc
    exact invoke_encoding_failed codec cf ctx callID method args sends uc w cause hmu henc

/-- C10 (amended) at concrete inputs: a send fails, the reconnect succeeds after one
failed dial, and the call completes on the fresh handle; and on a client with an
absent handle a request that does not encode is answered by the encoding error. -/
theorem handle_presence_witness :
    ((Invoke demoCodec tlsConnectFn ⟨none, .canceled, none⟩ "id" "m" 5
      [some "broken pipe", none] ⟨false, some 1⟩
      (World.init [.error "refused", .ok 7] [.ok [1, 9]])).1 ≠ .panicked ∧
    (Invoke demoCodec tlsConnectFn ⟨none, .canceled, none⟩ "id" "m" 5
      [some "broken pipe", none] ⟨false, some 1⟩
      (World.init [.error "refused", .ok 7] [.ok [1, 9]])).2.1.conn ≠ none) ∧
    Invoke refusingCodec tlsConnectFn ⟨none, .canceled, none⟩ "id" "m" 5 [none]
        ⟨false, none⟩ (World.init [] []) =
      (.returned ⟨some (.encoding "cannot marshal args"), none⟩, ⟨false, none⟩,
        ((World.init [] []).emit .lock).emit .unlock) :=
  ⟨(handle_presence demoCodec).1 tlsConnectFn ⟨none, .canceled, none⟩ "id" "m" 5
    [some "broken pipe", none] ⟨false, some 1⟩
    (World.init [.error "refused", .ok 7] [.ok [1, 9]])
    tlsConnectFn_presence (by decide),
   (handle_presence refusingCodec).2.2.2.2.2 tlsConnectFn ⟨none, .canceled, none⟩ "id" "m" 5
    [none] ⟨false, none⟩ (World.init [] []) "cannot marshal args" rfl (Or.inl rfl)⟩

/-! ## Retried calls -/

theorem writes_append (s t : List Event) : writes (s ++ t) = writes s ++ writes t := by
  simp [writes]

theorem reads_append (s t : List Event) : reads (s ++ t) = reads s ++ reads t := by
  simp [reads]

theorem stores_append (s t : List Event) : stores (s ++ t) = stores s ++ stores t := by
  simp [stores]

theorem failedRounds_silent (causes : List String) : ∀ d : Int,
    writes (failedRounds d causes) = [] ∧ reads (failedRounds d causes) = [] ∧
      stores (failedRounds d causes) = [] := by
  induction causes with
  | nil => intro d; simp [failedRounds, writes, reads, stores]
  | cons cause causes ih =>
    intro d
    obtain ⟨h1, h2, h3⟩ := ih (max (mulDuration d 2) minute)
    simp only [failedRounds, writes_append, reads_append, stores_append, h1, h2, h3]
    simp [writes, reads, stores, Event.write?, Event.read?, Event.store?]

/-- The failure branch when the context is seen live at each of its observations
and the dial script has a success after some failures: the fresh handle is stored
and the loop goes on. -/
theorem onTransportError_reconnects (ctx : Context) (what : String) (err : Error)
    (uc : UniClientConn) (w : World) (causes : List String) (c : Conn)
    (rest : List (Except String Conn))
    (hl : ∀ i, i < causes.length + 1 → ctx.doneAt (w.obs + i) = false)
    (hd : w.dials = causes.map Except.error ++ Except.ok c :: rest) :
    ∃ w', onTransportError tlsConnectFn ctx what err uc w = .inr (⟨uc.connMu, some c⟩, w') ∧
      w'.obs = w.obs + (causes.length + 1) ∧
      w'.dials = rest ∧ w'.recvs = w.recvs ∧ writes w'.trace = writes w.trace ∧
      reads w'.trace = reads w.trace ∧ stores w'.trace = stores w.trace ++ [some c] := by
  have h0 : ctx.doneAt w.obs = false := hl 0 (by simp)
  have hrl := retryLoop_failed_rounds ctx c rest causes second
    (w.observe.emit (.warnf ("received error %v " ++ what ++ " message, reconnecting") err))
    (by
      intro i hi
      have := hl (i + 1) (by simpa using hi)
      simpa [Nat.add_assoc, Nat.add_comm 1 i] using this)
  unfold onTransportError
  rw [h0]
  simp only [Bool.false_eq_true, if_false, tlsConnectFn, retryConnectWithBackoff, emit_dials,
    observe_dials, hd, hrl]
  refine ⟨_, rfl, ?_, rfl, rfl, ?_, ?_, ?_⟩
  · simp
    omega
  · simp only [emit_trace, observe_trace, writes_append,
      (failedRounds_silent causes second).1]
    simp [writes, Event.write?]
  · simp only [emit_trace, observe_trace, reads_append,
      (failedRounds_silent causes second).2.1]
    simp [reads, Event.read?]
  · simp only [emit_trace, observe_trace, stores_append,
      (failedRounds_silent causes second).2.2]
    simp [stores, Event.store?]

theorem sendCalls_effect (ctx : Context) (mu : Bool) (h : Conn) (rb : Bytes) (w : World) :
    (sendCalls ctx mu h rb w).dials = w.dials ∧
    (sendCalls ctx mu h rb w).obs = w.obs ∧
    writes (sendCalls ctx mu h rb w).trace = writes w.trace ++ [(h, rb)] ∧
    reads (sendCalls ctx mu h rb w).trace = reads w.trace ∧
    stores (sendCalls ctx mu h rb w).trace = stores w.trace := by
  unfold sendCalls
  cases ctx.deadline <;>
    simp [writes, reads, stores, Event.write?, Event.read?, Event.store?]

theorem recvCalls_effect (ctx : Context) (mu : Bool) (h : Conn) (w : World) :
    (recvCalls ctx mu h w).dials = w.dials ∧
    (recvCalls ctx mu h w).obs = w.obs ∧
    writes (recvCalls ctx mu h w).trace = writes w.trace ∧
    reads (recvCalls ctx mu h w).trace = reads w.trace ++ [h] ∧
    stores (recvCalls ctx mu h w).trace = stores w.trace := by
  unfold recvCalls
  cases ctx.deadline <;>
    simp [writes, reads, stores, Event.write?, Event.read?, Event.store?]

/-- The loop of `Invoke` on a run where the given rounds fail, each followed by a
successful reconnect, the context is seen live throughout, and a last round sends
and receives `b`. -/
theorem invokeLoop_retried (ctx : Context) (rb b : Bytes)
    (mu : Bool) (moreSends : List (Option String)) (moreDials : List (Except String Conn))
    (moreRecvs : List (Except String Bytes)) :
    ∀ (rs : List FailedRound) (h0 : Conn) (w : World),
      (∀ i, i < observations rs → ctx.doneAt (w.obs + i) = false) →
      w.dials = dialScript rs ++ moreDials → w.recvs = recvScript b rs ++ moreRecvs →
      ∃ w', invokeLoop tlsConnectFn ctx rb (sendScript rs ++ moreSends) ⟨mu, some h0⟩ w =
          (.returned (.ok b), ⟨mu, some (lastHandle h0 rs)⟩, w') ∧
        w'.dials = moreDials ∧ w'.recvs = moreRecvs ∧
        writes w'.trace = writes w.trace ++ roundWrites rb h0 rs ∧
        reads w'.trace = reads w.trace ++ roundReads h0 rs ∧
        stores w'.trace = stores w.trace ++ rs.map (fun r => some r.fresh) := by
  intro rs
  induction rs with
  | nil =>
    intro h0 w _ hd hr
    simp only [dialScript, recvScript, List.nil_append, List.singleton_append] at hd hr
    simp only [sendScript, List.singleton_append, invokeLoop_written, recvCalls_recvs,
      sendCalls_recvs, hr]
    obtain ⟨s1, _, s2, s3, s4⟩ := sendCalls_effect ctx mu h0 rb w
    obtain ⟨r1, _, r2, r3, r4⟩ := recvCalls_effect ctx mu h0 (sendCalls ctx mu h0 rb w)
    refine ⟨_, rfl, ?_, rfl, ?_, ?_, ?_⟩
    · simp [r1, s1, hd]
    · simp [r2, s2, roundWrites]
    · simp [r3, s3, roundReads]
    · simp [r4, s4]
  | cons r rs ih =>
    intro h0 w hl hd hr
    obtain ⟨fault, causes, fresh⟩ := r
    obtain ⟨s1, so, s2, s3, s4⟩ := sendCalls_effect ctx mu h0 rb w
    obtain ⟨r1, ro, r2, r3, r4⟩ := recvCalls_effect ctx mu h0 (sendCalls ctx mu h0 rb w)
    simp only [dialScript, List.append_assoc, List.cons_append] at hd
    simp only [observations] at hl
    have hnow : ∀ i, i < causes.length + 1 → ctx.doneAt (w.obs + i) = false :=
      fun i hi => hl i (by omega)
    have hlater : ∀ i, i < observations rs →
        ctx.doneAt (w.obs + (causes.length + 1) + i) = false := by
      intro i hi
      have := hl (causes.length + 1 + i) (by omega)
      simpa [Nat.add_assoc] using this
    cases fault with
    | write cause =>
      simp only [recvScript] at hr
      simp only [sendScript, List.cons_append, invokeLoop_write_failed]
      obtain ⟨w1, he, eo, e1, e2, e3, e4, e5⟩ := onTransportError_reconnects ctx "writing"
        (.write cause) ⟨mu, some h0⟩ (sendCalls ctx mu h0 rb w) causes fresh
        (dialScript rs ++ moreDials) (by rw [so]; exact hnow) (by rw [s1, hd])
      rw [he]
      obtain ⟨w', hlp, f1, f2, f3, f4, f5⟩ := ih fresh w1 (by rw [eo, so]; exact hlater) e1
        (by rw [e2, sendCalls_recvs, hr])
      refine ⟨w', hlp, f1, f2, ?_, ?_, ?_⟩
      · rw [f3, e3, s2]; simp [roundWrites]
      · rw [f4, e4, s3]; simp [roundReads]
      · rw [f5, e5, s4]; simp
    | read cause =>
      simp only [recvScript, List.cons_append] at hr
      simp only [sendScript, List.cons_append, invokeLoop_written, recvCalls_recvs,
        sendCalls_recvs, hr]
      obtain ⟨w1, he, eo, e1, e2, e3, e4, e5⟩ := onTransportError_reconnects ctx "reading"
        (.read cause) ⟨mu, some h0⟩
        { recvCalls ctx mu h0 (sendCalls ctx mu h0 rb w) with
          recvs := recvScript b rs ++ moreRecvs } causes fresh
        (dialScript rs ++ moreDials) (by simp only [ro, so]; exact hnow)
        (by simp only [r1, s1, hd])
      rw [he]
      obtain ⟨w', hlp, f1, f2, f3, f4, f5⟩ := ih fresh w1
        (by rw [eo]; simp only [ro, so]; exact hlater) e1 e2
      refine ⟨w', hlp, f1, f2, ?_, ?_, ?_⟩
      · rw [f3, e3]; simp [r2, s2, roundWrites]
      · rw [f4, e4]; simp [r3, s3, roundReads]
      · rw [f5, e5]; simp [r4, s4]

theorem roundWrites_length (rb : Bytes) : ∀ (rs : List FailedRound) (h0 : Conn),
    (roundWrites rb h0 rs).length = rs.length + 1 := by
  intro rs
  induction rs with
  | nil => intro h0; rfl
  | cons r rs ih => intro h0; simp [roundWrites, ih]

theorem roundWrites_bytes (rb : Bytes) : ∀ (rs : List FailedRound) (h0 : Conn),
    ∀ x ∈ roundWrites rb h0 rs, x.2 = rb := by
  intro rs
  induction rs with
  | nil => intro h0 x hx; simp [roundWrites] at hx; rw [hx]
  | cons r rs ih =>
    intro h0 x hx
    simp only [roundWrites, List.mem_cons] at hx
    rcases hx with rfl | hx
    · rfl
    · exact ih r.fresh x hx

/-- The receive script of a retried call holds exactly one success, the last
entry, with the bytes `b`. -/
theorem recvScript_one_success (b : Bytes) : ∀ rs : List FailedRound,
    (recvScript b rs).filterMap Except.toOption = [b] := by
  intro rs
  induction rs with
  | nil => rfl
  | cons r rs ih =>
    obtain ⟨fault, causes, fresh⟩ := r
    cases fault <;> simpa [recvScript, Except.toOption] using ih

/-- C7: on a run where some rounds of the loop fail at the send or at the receive
while the context is live (every observation of the run sees it live), every
failure is followed by a successful reconnect, and a last round sends and receives
`b` on the latest handle: `Invoke` returns the resolution of `b`; it makes one send
per round, each with the bytes of the one request built before the loop, each on
the handle that the reconnect before it stored; its receives are on the handle of
their round; the handle stored at the end is the latest one; and of the receive
script exactly the entries up to `b`, of which `b` is the only success, are
consumed. -/
theorem invoke_retried {Args Reply : Type} (codec : Codec Args Reply)
    (ctx : Context) (callID method : String) (args : Args)
    (req : Message) (rb b : Bytes) (rs : List FailedRound) (h0 : Conn)
    (moreSends : List (Option String)) (obs : Nat) (moreDials : List (Except String Conn))
    (moreRecvs : List (Except String Bytes))
    (hlive : ∀ i, i < observations rs → ctx.doneAt (obs + i) = false)
    (hreq : codec.newRequest callID method args = .ok req) (hmar : codec.marshal req = .ok rb) :
    (Invoke codec tlsConnectFn ctx callID method args
      (sendScript rs ++ moreSends) ⟨false, some h0⟩
      ⟨obs, dialScript rs ++ moreDials, recvScript b rs ++ moreRecvs, []⟩).1 =
        .returned (resolve codec b) ∧
    (Invoke codec tlsConnectFn ctx callID method args
      (sendScript rs ++ moreSends) ⟨false, some h0⟩
      ⟨obs, dialScript rs ++ moreDials, recvScript b rs ++ moreRecvs, []⟩).2.1 =
        ⟨false, some (lastHandle h0 rs)⟩ ∧
    writes (Invoke codec tlsConnectFn ctx callID method args
      (sendScript rs ++ moreSends) ⟨false, some h0⟩
      ⟨obs, dialScript rs ++ moreDials, recvScript b rs ++ moreRecvs, []⟩).2.2.trace =
        roundWrites rb h0 rs ∧
    (roundWrites rb h0 rs).length = rs.length + 1 ∧
    (∀ x ∈ roundWrites rb h0 rs, x.2 = rb) ∧
    reads (Invoke codec tlsConnectFn ctx callID method args
      (sendScript rs ++ moreSends) ⟨false, some h0⟩
      ⟨obs, dialScript rs ++ moreDials, recvScript b rs ++ moreRecvs, []⟩).2.2.trace =
        roundReads h0 rs ∧
    stores (Invoke codec tlsConnectFn ctx callID method args
      (sendScript rs ++ moreSends) ⟨false, some h0⟩
      ⟨obs, dialScript rs ++ moreDials, recvScript b rs ++ moreRecvs, []⟩).2.2.trace =
        rs.map (fun r => some r.fresh) ∧
    (Invoke codec tlsConnectFn ctx callID method args
      (sendScript rs ++ moreSends) ⟨false, some h0⟩
      ⟨obs, dialScript rs ++ moreDials, recvScript b rs ++ moreRecvs, []⟩).2.2.recvs =
        moreRecvs ∧
    (recvScript b rs).filterMap Except.toOption = [b] := by
  obtain ⟨w', hl, _, f2, f3, f4, f5⟩ := invokeLoop_retried ctx rb b true
    moreSends moreDials moreRecvs rs h0
    (World.emit ⟨obs, dialScript rs ++ moreDials, recvScript b rs ++ moreRecvs, []⟩ .lock)
    hlive rfl rfl
  have hrun : Invoke codec tlsConnectFn ctx callID method args
      (sendScript rs ++ moreSends) ⟨false, some h0⟩
      ⟨obs, dialScript rs ++ moreDials, recvScript b rs ++ moreRecvs, []⟩ =
      (.returned (resolve codec b), ⟨false, some (lastHandle h0 rs)⟩, w'.emit .unlock) := by
    simp only [Invoke, invokeBody, hreq, hmar, Bool.false_eq_true, if_false, hl]
  rw [hrun]
  refine ⟨rfl, rfl, ?_, roundWrites_length rb rs h0, roundWrites_bytes rb rs h0, ?_, ?_, f2,
    recvScript_one_success b rs⟩
  · simp only [emit_trace, writes_append, f3]
    simp [writes, Event.write?]
  · simp only [emit_trace, reads_append, f4]
    simp [reads, Event.read?]
  · simp only [emit_trace, stores_append, f5]
    simp [stores, Event.store?]

/-- C7 at a concrete input: one failed send, one reconnect, one successful resend
and receive, under a context that is cancelled only after the call. -/
theorem invoke_retried_witness :
    (Invoke demoCodec tlsConnectFn ⟨none, .canceled, some 1⟩ "id" "m" 5
      (sendScript [⟨.write "broken pipe", [], 7⟩] ++ []) ⟨false, some 1⟩
      ⟨0, dialScript [⟨.write "broken pipe", [], 7⟩] ++ [],
        recvScript [1, 9] [⟨.write "broken pipe", [], 7⟩] ++ [.ok [1, 4]], []⟩).1 =
        .returned (resolve demoCodec [1, 9]) ∧
    writes (Invoke demoCodec tlsConnectFn ⟨none, .canceled, some 1⟩ "id" "m" 5
      (sendScript [⟨.write "broken pipe", [], 7⟩] ++ []) ⟨false, some 1⟩
      ⟨0, dialScript [⟨.write "broken pipe", [], 7⟩] ++ [],
        recvScript [1, 9] [⟨.write "broken pipe", [], 7⟩] ++ [.ok [1, 4]], []⟩).2.2.trace =
        roundWrites [7, 7] 1 [⟨.write "broken pipe", [], 7⟩] ∧
    roundWrites [7, 7] 1 [⟨.write "broken pipe", [], 7⟩] = [(1, [7, 7]), (7, [7, 7])] ∧
    resolve demoCodec [1, 9] = ⟨none, some 9⟩ :=
  have h := invoke_retried demoCodec ⟨none, .canceled, some 1⟩ "id" "m" 5
    ⟨.request ⟨"id", "m", [5]⟩⟩ [7, 7] [1, 9] [⟨.write "broken pipe", [], 7⟩] 1 [] 0 []
    [.ok [1, 4]] (by decide) rfl rfl
  ⟨h.1, h.2.2.1, by decide, by decide⟩

/-! ## The connection lock -/

theorem Guarded.same (w : World) : Guarded w w := ⟨[], by simp, by simp⟩

theorem Guarded.chain {w1 w2 w3 : World} (h12 : Guarded w1 w2) (h23 : Guarded w2 w3) :
    Guarded w1 w3 := by
  obtain ⟨t12, e12, q12⟩ := h12
  obtain ⟨t23, e23, q23⟩ := h23
  refine ⟨t12 ++ t23, by rw [e23, e12, List.append_assoc], ?_⟩
  intro e he
  rcases List.mem_append.mp he with h | h
  · exact q12 e h
  · exact q23 e h

theorem Guarded.one (w : World) (e : Event) (h : e.isUnguarded = false) :
    Guarded w (w.emit e) :=
  ⟨[e], rfl, by simpa using h⟩

theorem Frame.guarded {w w' : World} (h : Frame true w w') : Guarded w w' := by
  obtain ⟨_, t, ht, hq⟩ := h
  exact ⟨t, ht, fun e he => (hq e he).2 rfl⟩

theorem sendCalls_guarded (ctx : Context) (h : Conn) (rb : Bytes) (w : World) :
    Guarded w (sendCalls ctx true h rb w) := by
  unfold sendCalls
  rcases ctx.deadline with _ | d
  · exact ⟨[.loadConn true, .writeMessage h rb], by simp [World.emit],
      by simp [Event.isUnguarded]⟩
  · exact ⟨[.loadConn true, .setWriteDeadline h d, .loadConn true, .writeMessage h rb],
      by simp [World.emit], by simp [Event.isUnguarded]⟩

theorem recvCalls_guarded (ctx : Context) (h : Conn) (w : World) :
    Guarded w (recvCalls ctx true h w) := by
  unfold recvCalls
  rcases ctx.deadline with _ | d
  · exact ⟨[.loadConn true, .readMessage h], by simp [World.emit],
      by simp [Event.isUnguarded]⟩
  · exact ⟨[.loadConn true, .setReadDeadline h d, .loadConn true, .readMessage h],
      by simp [World.emit], by simp [Event.isUnguarded]⟩

/-- With the mutex held, the loop of `Invoke` reads and assigns `uc.conn` under
the mutex only, the reconnects included. -/
theorem invokeLoop_guarded (ctx : Context) (rb : Bytes) :
    ∀ (sends : List (Option String)) (conn : Option Conn) (w : World),
      Guarded w (invokeLoop tlsConnectFn ctx rb sends ⟨true, conn⟩ w).2.2 ∧
      (invokeLoop tlsConnectFn ctx rb sends ⟨true, conn⟩ w).2.1.connMu = true := by
  intro sends
  induction sends with
  | nil =>
    rintro (_ | h) w
    · rw [invokeLoop_nil_conn]; exact ⟨Guarded.one _ _ rfl, rfl⟩
    · rw [invokeLoop_nil]; exact ⟨sendCalls_guarded ctx h rb w, rfl⟩
  | cons s sends ih =>
    rintro (_ | h) w
    · rw [invokeLoop_nil_conn]; exact ⟨Guarded.one _ _ rfl, rfl⟩
    · cases s with
      | some cause =>
        rw [invokeLoop_write_failed]
        rcases onTransportError_tls ctx "writing" (.write cause) ⟨true, some h⟩
            (sendCalls ctx true h rb w) with ⟨w', he, hf⟩ | ⟨w', he, hf, _⟩ | ⟨h', w', he, hf⟩
        · rw [he]; exact ⟨(sendCalls_guarded ctx h rb w).chain hf.guarded, rfl⟩
        · rw [he]; exact ⟨(sendCalls_guarded ctx h rb w).chain hf.guarded, rfl⟩
        · rw [he]
          obtain ⟨g, hmu⟩ := ih (some h') w'
          exact ⟨((sendCalls_guarded ctx h rb w).chain hf.guarded).chain g, hmu⟩
      | none =>
        rw [invokeLoop_written]
        have hg : Guarded w (recvCalls ctx true h (sendCalls ctx true h rb w)) :=
          (sendCalls_guarded ctx h rb w).chain (recvCalls_guarded ctx h _)
        rcases (recvCalls ctx true h (sendCalls ctx true h rb w)).recvs with _ | ⟨r, recvs⟩
        · exact ⟨hg, rfl⟩
        · cases r with
          | ok b => exact ⟨hg, rfl⟩
          | error cause =>
            simp only
            have hg' : Guarded w { recvCalls ctx true h (sendCalls ctx true h rb w) with
                recvs := recvs } := hg
            rcases onTransportError_tls ctx "reading" (.read cause) ⟨true, some h⟩
                { recvCalls ctx true h (sendCalls ctx true h rb w) with recvs := recvs }
              with ⟨w', he, hf⟩ | ⟨w', he, hf, _⟩ | ⟨h', w', he, hf⟩
            · rw [he]; exact ⟨hg'.chain hf.guarded, rfl⟩
            · rw [he]; exact ⟨hg'.chain hf.guarded, rfl⟩
            · rw [he]
              obtain ⟨g, hmu⟩ := ih (some h') w'
              exact ⟨(hg'.chain hf.guarded).chain g, hmu⟩

/-- Method `Invoke` reads and assigns `uc.conn` under the mutex only: between its
`Lock` and its `Unlock`, every access in its trace was made with `connMu` held. -/
theorem invoke_guarded {Args Reply : Type} (codec : Codec Args Reply) (ctx : Context)
    (callID method : String) (args : Args) (sends : List (Option String))
    (uc : UniClientConn) (w : World) :
    Guarded w (Invoke codec tlsConnectFn ctx callID method args sends uc w).2.2 := by
  unfold Invoke
  split
  · exact Guarded.same w
  · have hbody : Guarded (w.emit .lock) (invokeBody codec tlsConnectFn ctx callID method args
        sends { uc with connMu := true } (w.emit .lock)).2.2 := by
      unfold invokeBody
      split
      · exact Guarded.same _
      · split
        · exact Guarded.same _
        · rename_i rb _
          have hl := (invokeLoop_guarded ctx rb sends uc.conn (w.emit .lock)).1
          split <;> rename_i heq <;> rw [heq] at hl <;> exact hl
    have hall := (Guarded.one w .lock rfl).chain hbody
    rcases hb : invokeBody codec tlsConnectFn ctx callID method args sends
      { uc with connMu := true } (w.emit .lock) with ⟨st, uc', w'⟩
    rw [hb] at hall
    cases st
    · exact hall.chain (Guarded.one w' .unlock rfl)
    · exact hall.chain (Guarded.one w' .unlock rfl)
    · exact hall

/-- C9, the code at the failing input: `Dial` on the client that
`NewTLSUniClientConn` builds, with a first dial that succeeds, assigns `uc.conn`
while `connMu` is not held; its trace has no `Lock`. -/
theorem dial_assigns_without_lock :
    Dial tlsConnectFn ⟨none, .canceled, none⟩ NewTLSUniClientConn (World.init [.ok 1] []) =
      (.returned none, ⟨false, some 1⟩,
        ⟨0, [], [], [.dialContext, .storeConn false (some 1)]⟩) ∧
    Event.isUnguarded (.storeConn false (some 1)) = true := by
  decide

end Wsrpc
